import Mathlib

/-!
Verification development for the osaurus native plugin host.

The data shapes (`osr_host_api`, `osr_plugin_api`, the two entry symbols)
are translated from `src/Packages/OsaurusCore/Tools/PluginABI/osaurus_plugin.h`.
The host-side behaviour (loader, string ownership manager, invocation
dispatcher, lifecycle manager, host callback table builder) is not part of
the source tree; those definitions are modelled from the specification and
are marked `Modelled from the spec:` in their doc comments.

Modelling conventions:
* C function pointers become Lean functions; nullable function pointers
  become `Option`-valued fields.
* The opaque `osr_plugin_ctx_t` is a token (`Nat`) never inspected by the
  host.
* Strings returned by a plugin are tracked as buffers identified by
  `(owning plugin, pointer id)`; calls of `free_string` and calls into the
  plugin are recorded as `Event`s in a trace, so ownership and lifecycle
  properties are statements about the traces the host emits.
* `destroy` and `on_config_changed` return `void` in C; the spec discusses
  plugins that raise/misbehave during these calls, so the model gives them
  a `Bool` outcome (`true` = returned normally, `false` = signalled a
  failure), which the host records but never propagates.
-/

namespace Osaurus

/-- Identifier of a loaded plugin instance (the host's Handle key). -/
abbrev PluginId := Nat

/-- Opaque plugin context token (`osr_plugin_ctx_t`): an owned,
non-dereferenceable value threaded through calls unmodified. -/
abbrev Ctx := Nat

/-- A (capability-type, capability-id) pair advertised by a Manifest,
e.g. type `tool`, id a tool name. -/
structure Capability where
  type : String
  id : String
deriving DecidableEq, Repr

/-- An HTTP route (method, path) declared by a Manifest. -/
structure Route where
  method : String
  path : String
deriving DecidableEq, Repr

/-- Decoded plugin Manifest: capabilities, declared routes, watched config
keys. -/
structure Manifest where
  capabilities : List Capability
  routes : List Route
  watchedConfigKeys : List String
deriving DecidableEq, Repr

/-- The empty Manifest (used when a plugin returns no manifest content). -/
def Manifest.empty : Manifest := ⟨[], [], []⟩

/-- Host Callback Table (`osr_host_api` from osaurus_plugin.h): the bound
functions handed to v2 plugins at entry.  Return types follow the C
typedefs (`osr_config_set_fn` and `osr_config_delete_fn` return void). -/
structure osr_host_api where
  version : Nat
  config_get : String → Option String
  config_set : String → String → Unit
  config_delete : String → Unit
  db_exec : String → String → String
  db_query : String → String → String
  log : Nat → String → Unit

/-- Plugin API table (`osr_plugin_api` from osaurus_plugin.h), fields in
header order.  `free_string` is not a field here: deallocation is modelled
by `Event.freeString` entries in the host trace, scoped to the owning
plugin.  `init` returns the context or `none` (NULL) on failure;
`get_manifest`, `invoke` and `handle_route` return an owned string or
`none` (NULL); `version` is the v2 discriminant field (0 for v1 tables,
2 for v2); `handle_route` and `on_config_changed` may be NULL (`none`). -/
structure osr_plugin_api where
  init : Option Ctx
  destroy : Ctx → Bool
  get_manifest : Ctx → Option String
  invoke : Ctx → String → String → String → Option String
  version : Nat
  handle_route : Option (Ctx → String → Option String)
  on_config_changed : Option (Ctx → String → String → Bool)

/-- A loadable dynamic module: whether it can be opened, and which of the
two entry symbols of osaurus_plugin.h it exports (`none` = the symbol does
not resolve).  `osaurus_plugin_entry_v2` receives the Host Callback Table;
`osaurus_plugin_entry` takes no arguments.  Either entry may return a null
API table (`none`), as the C signatures permit. -/
structure PluginModule where
  openable : Bool
  osaurus_plugin_entry_v2 : Option (osr_host_api → Option osr_plugin_api)
  osaurus_plugin_entry : Option (Unit → Option osr_plugin_api)

/-- Events of the host trace: buffers returned by plugins, `free_string`
calls (tagged with whose deallocator was used), and calls into a plugin. -/
inductive Event where
  | pluginReturned (owner : PluginId) (ptr : Nat)
  | freeString (owner : PluginId) (ptr : Nat)
  | callInit (p : PluginId)
  | callDestroy (p : PluginId)
  | callInvoke (p : PluginId)
  | callRoute (p : PluginId)
  | callConfigChanged (p : PluginId)
deriving DecidableEq, Repr

/-- Load failures (the LoadError taxonomy). -/
inductive LoadError where
  | openFailed
  | noEntrySymbol
  | nullApi
  | nullContext
  | unrecognizedVersion (v : Nat)
deriving DecidableEq, Repr

/-- Errors the host records (reported, never silently ignored). -/
inductive HostError where
  | loadFailed (e : LoadError)
  | routeCollision (p : PluginId) (r : Route)
  | nullRouteHandler (p : PluginId) (r : Route)
  | configChangeFailed (p : PluginId) (key : String)
  | destroyMisbehaved (p : PluginId)
deriving DecidableEq, Repr

/-- Lifecycle state of a Handle after a successful load (`init` has
completed): in the `Active` window, or `Destroyed` (terminal). -/
inductive LifeState where
  | active
  | destroyed
deriving DecidableEq, Repr

/-- Plugin Handle: the host's record of one loaded module — stable id,
negotiated ABI version (1 or 2), the opaque context from `init`, the
resolved API table, the decoded Manifest, and the lifecycle state. -/
structure Handle where
  pid : PluginId
  abiVersion : Nat
  ctx : Ctx
  api : osr_plugin_api
  manifest : Manifest
  st : LifeState

/-- Parsing hooks the dispatcher depends on: a JSON well-formedness check
and a Manifest decoder (JSON handling is outside the plugin-host core). -/
structure Codec where
  wfJson : String → Bool
  decodeManifest : String → Option Manifest

/-- Modelled from the spec: the String Ownership Manager's scoped
acquisition wrapper.  The host receives a plugin's string return; a
non-null buffer gets a fresh pointer id, is recorded as returned and is
released via that same plugin's `free_string` exactly once before the
wrapper exits; a null return produces no buffer and is never passed to the
deallocator.  Returns the content, the next fresh pointer id, and the
emitted events. -/
def acquireString (owner : PluginId) (nextPtr : Nat) (ret : Option String) :
    Option String × Nat × List Event :=
  match ret with
  | none => (none, nextPtr, [])
  | some s =>
      (some s, nextPtr + 1,
        [Event.pluginReturned owner nextPtr, Event.freeString owner nextPtr])

/-- Modelled from the spec: version negotiation from the API table's
`version` field — 0 (absent/zeroed) means ABI version 1, 2 means version 2,
anything else is unrecognized. -/
def negotiateVersion (v : Nat) : Option Nat :=
  if v = 0 then some 1 else if v = 2 then some 2 else none

/-- Modelled from the spec: entry symbol resolution with version fallback.
The loader tries `osaurus_plugin_entry_v2` first, calling it with the
process's Host Callback Table; only when that symbol is absent does it
resolve and call `osaurus_plugin_entry` with no arguments.  A resolved
entry returning a null table is a load failure, not a reason to fall
back. -/
def entryResult (host : osr_host_api) (m : PluginModule) :
    Except LoadError osr_plugin_api :=
  match m.osaurus_plugin_entry_v2 with
  | some f =>
      match f host with
      | some api => .ok api
      | none => .error .nullApi
  | none =>
      match m.osaurus_plugin_entry with
      | some g =>
          match g () with
          | some api => .ok api
          | none => .error .nullApi
      | none => .error .noEntrySymbol

/-- Modelled from the spec: the Plugin Loader.  Opens the module, resolves
the entry with v2-first fallback, validates the returned table's version,
calls `init` (a null context fails the load), fetches and decodes the
Manifest through the string ownership wrapper, and produces exactly one
Plugin Handle on success.  Returns the result, the next fresh pointer id,
and the emitted events. -/
def loadModule (codec : Codec) (host : osr_host_api) (pid : PluginId)
    (nextPtr : Nat) (m : PluginModule) :
    Except LoadError Handle × Nat × List Event :=
  if m.openable = false then (.error .openFailed, nextPtr, [])
  else
    match entryResult host m with
    | .error e => (.error e, nextPtr, [])
    | .ok api =>
        match negotiateVersion api.version with
        | none => (.error (.unrecognizedVersion api.version), nextPtr, [])
        | some nv =>
            match api.init with
            | none => (.error .nullContext, nextPtr, [Event.callInit pid])
            | some ctx =>
                let acq := acquireString pid nextPtr (api.get_manifest ctx)
                let mf :=
                  match acq.1 with
                  | none => Manifest.empty
                  | some s => (codec.decodeManifest s).getD Manifest.empty
                (.ok ⟨pid, nv, ctx, api, mf, .active⟩, acq.2.1,
                  Event.callInit pid :: acq.2.2)

/-- Configuration store of the host application (an association list). -/
abbrev ConfigStore := List (String × String)

/-- Modelled from the spec: the bound `config_get` callback — looks the key
up in the configuration store and returns null (`none`) when the key is
absent.  The returned string is host-owned. -/
def config_get (store : ConfigStore) (key : String) : Option String :=
  match store with
  | [] => none
  | kv :: rest => if kv.1 = key then some kv.2 else config_get rest key

/-- Modelled from the spec: the bound `config_set` callback.  The
underlying store update `raw` may fail; a failure is logged (second
component) and not signalled to the caller — the result carries no error
channel, matching the void C return type. -/
def config_set (raw : ConfigStore → String → String → Except String ConfigStore)
    (store : ConfigStore) (key value : String) : ConfigStore × List String :=
  match raw store key value with
  | .ok s2 => (s2, [])
  | .error e => (store, [e])

/-- Modelled from the spec: the bound `config_delete` callback; failures of
the underlying delete are logged, not signalled to the caller. -/
def config_delete (raw : ConfigStore → String → Except String ConfigStore)
    (store : ConfigStore) (key : String) : ConfigStore × List String :=
  match raw store key with
  | .ok s2 => (s2, [])
  | .error e => (store, [e])

/-- A default (never-failing) store update, for concrete instantiations. -/
def rawConfigSet (store : ConfigStore) (key value : String) :
    Except String ConfigStore :=
  .ok ((key, value) :: store.filter (fun kv => kv.1 ≠ key))

/-- A default (never-failing) store delete, for concrete instantiations. -/
def rawConfigDelete (store : ConfigStore) (key : String) :
    Except String ConfigStore :=
  .ok (store.filter (fun kv => kv.1 ≠ key))

/-- Modelled from the spec: the Host Callback Table Builder — constructs
the table once at process start, binding `config_get` to the configuration
store; the void-returning callbacks are bound to the unit effect (their
observable behaviour is modelled by `config_set`/`config_delete` above). -/
def buildHostApi (store : ConfigStore) : osr_host_api :=
  { version := 2
    config_get := fun key => config_get store key
    config_set := fun _ _ => ()
    config_delete := fun _ => ()
    db_exec := fun _ _ => ""
    db_query := fun _ _ => ""
    log := fun _ _ => () }

/-- Host state: loaded Handles in load order, the fresh-buffer counter, the
fresh plugin-id counter, and the recorded errors. -/
structure HostState where
  handles : List Handle
  nextPtr : Nat
  nextPid : Nat
  errors : List HostError

/-- The host's initial state (no plugins loaded). -/
def initState : HostState := ⟨[], 0, 0, []⟩

/-- The plugin ids of the loaded Handles, in load order. -/
def pids (s : HostState) : List PluginId := s.handles.map (fun h => h.pid)

/-- Find the Handle with a given plugin id. -/
def findHandle : List Handle → PluginId → Option Handle
  | [], _ => none
  | h :: rest, p => if h.pid = p then some h else findHandle rest p

/-- Mark the Handle with the given plugin id as destroyed. -/
def markDestroyed : List Handle → PluginId → List Handle
  | [], _ => []
  | h :: rest, p =>
      if h.pid = p then { h with st := .destroyed } :: rest
      else h :: markDestroyed rest p

/-- Modelled from the spec: the route handler available on a Handle.  The
v2 fields of a v1 table are never read — for a Handle negotiated at
version 1 the hook is absent regardless of the table's contents. -/
def routeHook (h : Handle) : Option (Ctx → String → Option String) :=
  if h.abiVersion = 1 then none else h.api.handle_route

/-- Modelled from the spec: the config-change hook available on a Handle;
absent for v1 Handles (their v2 fields are never read). -/
def configHook (h : Handle) : Option (Ctx → String → String → Bool) :=
  if h.abiVersion = 1 then none else h.api.on_config_changed

/-- Result of a generic invocation: capability not found, a well-formed
JSON payload passed through verbatim (plugin-signalled application errors
travel inside it), a protocol error (non-well-formed JSON), or a null
return (no content). -/
inductive InvokeOutcome where
  | notFound
  | ok (payload : String)
  | protocolError
  | noContent
deriving DecidableEq, Repr

/-- Result of an HTTP route dispatch: no declared route matched, a
well-formed JSON response passed through verbatim, a protocol error, a
configuration error (declared route with a null handler), or a null
return. -/
inductive RouteOutcome where
  | noRoute
  | ok (responseJson : String)
  | protocolError
  | configError
  | noContent
deriving DecidableEq, Repr

/-- Does the Handle advertise the capability in its Manifest? -/
def advertises (h : Handle) (c : Capability) : Prop :=
  c ∈ h.manifest.capabilities

instance (h : Handle) (c : Capability) : Decidable (advertises h c) :=
  inferInstanceAs (Decidable (c ∈ h.manifest.capabilities))

/-- Modelled from the spec: capability lookup in the cached Manifest index —
the first Handle in load order that is in its Active window and advertises
the (type, id) pair. -/
def findCapability (hs : List Handle) (c : Capability) : Option Handle :=
  match hs with
  | [] => none
  | h :: rest =>
      if h.st = .active ∧ advertises h c then some h
      else findCapability rest c

/-- Modelled from the spec: the Generic invoke dispatcher.  Looks the
(type, id) pair up in the Manifests; no match is a "capability not found"
result with no plugin called; otherwise the plugin's `invoke` runs, its
returned string goes through the ownership wrapper, and the parse outcome
decides between pass-through and protocol error. -/
def genericInvoke (codec : Codec) (s : HostState) (ty id payload : String) :
    InvokeOutcome × HostState × List Event :=
  match findCapability s.handles ⟨ty, id⟩ with
  | none => (.notFound, s, [])
  | some h =>
      let acq := acquireString h.pid s.nextPtr (h.api.invoke h.ctx ty id payload)
      let out :=
        match acq.1 with
        | none => InvokeOutcome.noContent
        | some str =>
            if codec.wfJson str then InvokeOutcome.ok str
            else InvokeOutcome.protocolError
      (out, { s with nextPtr := acq.2.1 }, Event.callInvoke h.pid :: acq.2.2)

/-- Does the route match the request's (method, path)? -/
def routeMatches (r : Route) (method path : String) : Prop :=
  r.method = method ∧ r.path = path

instance (r : Route) (method path : String) :
    Decidable (routeMatches r method path) :=
  inferInstanceAs (Decidable (r.method = method ∧ r.path = path))

/-- Modelled from the spec: route lookup over the union of declared routes,
in load order, first match wins. -/
def findRoute (hs : List Handle) (method path : String) :
    Option (Handle × Route) :=
  match hs with
  | [] => none
  | h :: rest =>
      if h.st = .active then
        match h.manifest.routes.find? (fun r => decide (routeMatches r method path)) with
        | some r => some (h, r)
        | none => findRoute rest method path
      else findRoute rest method path

/-- Modelled from the spec: the HTTP route dispatcher.  Matches the path
against the union of declared routes (first match wins); `handle_route` is
called only when the matched Handle's hook is non-null; a matched declared
route with a null hook is a configuration error, recorded, never silently
ignored. -/
def dispatchRoute (codec : Codec) (s : HostState) (method path body : String) :
    RouteOutcome × HostState × List Event :=
  match findRoute s.handles method path with
  | none => (.noRoute, s, [])
  | some (h, r) =>
      match routeHook h with
      | none =>
          (.configError,
            { s with errors := s.errors ++ [.nullRouteHandler h.pid r] }, [])
      | some f =>
          let acq := acquireString h.pid s.nextPtr (f h.ctx body)
          let out :=
            match acq.1 with
            | none => RouteOutcome.noContent
            | some str =>
                if codec.wfJson str then RouteOutcome.ok str
                else RouteOutcome.protocolError
          (out, { s with nextPtr := acq.2.1 }, Event.callRoute h.pid :: acq.2.2)

/-- Modelled from the spec: delivery of one config-change event to one
Handle — nothing for a destroyed Handle or an absent hook; otherwise the
hook is called and a signalled failure is recorded. -/
def notifyHandle (key value : String) (h : Handle) :
    List Event × List HostError :=
  if h.st = .active then
    match configHook h with
    | none => ([], [])
    | some f =>
        ([Event.callConfigChanged h.pid],
          if f h.ctx key value then [] else [HostError.configChangeFailed h.pid key])
  else ([], [])

/-- Modelled from the spec: the config-change broadcast — synchronous, in
load order, to exactly the Handles whose hook is present; per-plugin
failures are recorded and never stop the remainder of the broadcast. -/
def configBroadcast (s : HostState) (key value : String) :
    HostState × List Event :=
  let results := s.handles.map (notifyHandle key value)
  ({ s with errors := s.errors ++ (results.map Prod.snd).flatten },
    (results.map Prod.fst).flatten)

/-- Modelled from the spec: Handle destruction.  `destroy` runs exactly
once per Handle: a second attempt (or an unknown id) no-ops without calling
`destroy` again; a misbehaving `destroy` is recorded. -/
def destroyHandle (s : HostState) (p : PluginId) : HostState × List Event :=
  match findHandle s.handles p with
  | none => (s, [])
  | some h =>
      if h.st = .destroyed then (s, [])
      else
        ({ s with
            handles := markDestroyed s.handles p
            errors := s.errors ++
              (if h.api.destroy h.ctx then [] else [HostError.destroyMisbehaved p]) },
          [Event.callDestroy p])

/-- Destroy every Handle in the given id list in order, continuing past
misbehaving destroys. -/
def shutdownAll (s : HostState) : List PluginId → HostState × List Event
  | [] => (s, [])
  | p :: ps =>
      let d := destroyHandle s p
      let rest := shutdownAll d.1 ps
      (rest.1, d.2 ++ rest.2)

/-- Modelled from the spec: registration of a freshly loaded Handle — the
Handle is appended in load order and any route it declares that an earlier
Handle already declared is recorded as a registration-time collision
error. -/
def registerHandle (s : HostState) (h : Handle) : HostState :=
  let collisions := h.manifest.routes.filter
    (fun r => s.handles.any (fun h2 => decide (r ∈ h2.manifest.routes)))
  { s with
    handles := s.handles ++ [h]
    errors := s.errors ++ collisions.map (HostError.routeCollision h.pid) }

/-- The operations the host performs. -/
inductive Op where
  | load (m : PluginModule)
  | invoke (ty id payload : String)
  | route (method path body : String)
  | configChanged (key value : String)
  | destroy (p : PluginId)
  | shutdown

/-- Modelled from the spec: one host step.  A failed load records the
error and registers nothing (the module is discarded, not
half-registered); a successful load registers exactly one Handle;
shutdown destroys every loaded Handle. -/
def hostStep (codec : Codec) (host : osr_host_api) (s : HostState) :
    Op → HostState × List Event
  | .load m =>
      let r := loadModule codec host s.nextPid s.nextPtr m
      match r.1 with
      | .error e =>
          ({ s with
              nextPtr := r.2.1
              nextPid := s.nextPid + 1
              errors := s.errors ++ [.loadFailed e] }, r.2.2)
      | .ok h =>
          (registerHandle
            { s with
              nextPtr := r.2.1
              nextPid := s.nextPid + 1 } h, r.2.2)
  | .invoke ty id payload =>
      let r := genericInvoke codec s ty id payload
      (r.2.1, r.2.2)
  | .route method path body =>
      let r := dispatchRoute codec s method path body
      (r.2.1, r.2.2)
  | .configChanged key value => configBroadcast s key value
  | .destroy p => destroyHandle s p
  | .shutdown => shutdownAll s (pids s)

/-- Run a sequence of host operations, collecting the emitted trace. -/
def runHost (codec : Codec) (host : osr_host_api) (s : HostState) :
    List Op → HostState × List Event
  | [] => (s, [])
  | op :: ops =>
      let r := hostStep codec host s op
      let rest := runHost codec host r.1 ops
      (rest.1, r.2 ++ rest.2)

/-! Concrete fixtures for evaluating the model on small inputs. -/

/-- A Manifest advertising one tool capability and one route. -/
def mfA : Manifest := ⟨[⟨"tool", "t1"⟩], [⟨"GET", "/widgets"⟩], []⟩

/-- A Manifest advertising a second tool capability and the same route as
`mfA` (for collision scenarios). -/
def mfB : Manifest := ⟨[⟨"tool", "t2"⟩], [⟨"GET", "/widgets"⟩], []⟩

/-- A concrete codec: only the string `{}` counts as well-formed JSON; the
manifest strings `A` and `B` decode to `mfA` and `mfB`. -/
def codecW : Codec :=
  ⟨fun s => s == "{}",
    fun s => if s = "A" then some mfA else if s = "B" then some mfB else none⟩

/-- A concrete v2 plugin API table with both optional hooks present. -/
def apiV2A : osr_plugin_api :=
  { init := some 7
    destroy := fun _ => true
    get_manifest := fun _ => some "A"
    invoke := fun _ _ _ _ => some "{}"
    version := 2
    handle_route := some (fun _ _ => some "{}")
    on_config_changed := some (fun _ _ _ => true) }

/-- A concrete v1 plugin API table (version field zeroed, v2 hooks set to
arbitrary junk the host must never read). -/
def apiV1 : osr_plugin_api :=
  { init := some 3
    destroy := fun _ => true
    get_manifest := fun _ => some "A"
    invoke := fun _ _ _ _ => some "{}"
    version := 0
    handle_route := some (fun _ _ => some "{}")
    on_config_changed := some (fun _ _ _ => false) }

/-- A concrete v2 module exporting only the v2 entry. -/
def modA : PluginModule := ⟨true, some (fun _ => some apiV2A), none⟩

/-- A concrete v1 module exporting only the legacy entry. -/
def modV1 : PluginModule := ⟨true, none, some (fun _ => some apiV1)⟩

/-- A module whose v2 entry resolves but returns a null API table. -/
def modNullApi : PluginModule := ⟨true, some (fun _ => none), none⟩

/-- A concrete host callback table over a one-entry config store. -/
def hostW : osr_host_api := buildHostApi [("k", "v")]

/-! Trace classification: the buffers returned and the buffers freed. -/

/-- The `(owner, ptr)` pairs of the `pluginReturned` events of a trace, in
order. -/
def retsOf : List Event → List (PluginId × Nat)
  | [] => []
  | .pluginReturned o p :: tr => (o, p) :: retsOf tr
  | .freeString _ _ :: tr => retsOf tr
  | .callInit _ :: tr => retsOf tr
  | .callDestroy _ :: tr => retsOf tr
  | .callInvoke _ :: tr => retsOf tr
  | .callRoute _ :: tr => retsOf tr
  | .callConfigChanged _ :: tr => retsOf tr

/-- The `(owner, ptr)` pairs of the `freeString` events of a trace, in
order. -/
def freesOf : List Event → List (PluginId × Nat)
  | [] => []
  | .freeString o p :: tr => (o, p) :: freesOf tr
  | .pluginReturned _ _ :: tr => freesOf tr
  | .callInit _ :: tr => freesOf tr
  | .callDestroy _ :: tr => freesOf tr
  | .callInvoke _ :: tr => freesOf tr
  | .callRoute _ :: tr => freesOf tr
  | .callConfigChanged _ :: tr => freesOf tr

theorem retsOf_append (t1 t2 : List Event) :
    retsOf (t1 ++ t2) = retsOf t1 ++ retsOf t2 := by
  induction t1 with
  | nil => rfl
  | cons e tr ih => cases e <;> simp [retsOf, ih]

theorem freesOf_append (t1 t2 : List Event) :
    freesOf (t1 ++ t2) = freesOf t1 ++ freesOf t2 := by
  induction t1 with
  | nil => rfl
  | cons e tr ih => cases e <;> simp [freesOf, ih]

theorem mem_retsOf (tr : List Event) (o : PluginId) (p : Nat) :
    (o, p) ∈ retsOf tr ↔ Event.pluginReturned o p ∈ tr := by
  induction tr with
  | nil => simp [retsOf]
  | cons e tr ih => cases e <;> simp [retsOf, ih, Prod.ext_iff]

theorem mem_freesOf (tr : List Event) (o : PluginId) (p : Nat) :
    (o, p) ∈ freesOf tr ↔ Event.freeString o p ∈ tr := by
  induction tr with
  | nil => simp [freesOf]
  | cons e tr ih => cases e <;> simp [freesOf, ih, Prod.ext_iff]

theorem count_retsOf (tr : List Event) (o : PluginId) (p : Nat) :
    (retsOf tr).count (o, p) = tr.count (Event.pluginReturned o p) := by
  induction tr with
  | nil => rfl
  | cons e tr ih =>
      cases e <;>
        simp [retsOf, List.count_cons, ih, Prod.ext_iff]

theorem count_freesOf (tr : List Event) (o : PluginId) (p : Nat) :
    (freesOf tr).count (o, p) = tr.count (Event.freeString o p) := by
  induction tr with
  | nil => rfl
  | cons e tr ih =>
      cases e <;>
        simp [freesOf, List.count_cons, ih, Prod.ext_iff]

/-- Ownership discipline of one trace segment emitted between fresh-buffer
counters `np` and `np2`: the buffers returned and the buffers freed
coincide (owner and pointer, in order), every buffer id lies in the
segment's fresh-id window, and at most one buffer is acquired in the
segment. -/
def SegSpec (np np2 : Nat) (tr : List Event) : Prop :=
  retsOf tr = freesOf tr ∧ np ≤ np2 ∧
    (∀ x ∈ retsOf tr, np ≤ x.2 ∧ x.2 < np2) ∧ (retsOf tr).length ≤ 1

/-- Ownership discipline of a whole trace: returned and freed buffers
coincide, buffer ids lie in the window, and no buffer id is acquired
twice. -/
def TraceSpec (np np2 : Nat) (tr : List Event) : Prop :=
  retsOf tr = freesOf tr ∧ np ≤ np2 ∧
    (∀ x ∈ retsOf tr, np ≤ x.2 ∧ x.2 < np2) ∧
    ((retsOf tr).map Prod.snd).Nodup

theorem SegSpec.toTraceSpec {np np2 : Nat} {tr : List Event}
    (h : SegSpec np np2 tr) : TraceSpec np np2 tr := by
  obtain ⟨h1, h2, h3, h4⟩ := h
  refine ⟨h1, h2, h3, ?_⟩
  match hr : retsOf tr with
  | [] => simp
  | [x] => simp
  | x :: y :: l => rw [hr] at h4; simp at h4

theorem TraceSpec.append {np np2 np3 : Nat} {t1 t2 : List Event}
    (h1 : TraceSpec np np2 t1) (h2 : TraceSpec np2 np3 t2) :
    TraceSpec np np3 (t1 ++ t2) := by
  obtain ⟨a1, b1, c1, d1⟩ := h1
  obtain ⟨a2, b2, c2, d2⟩ := h2
  refine ⟨?_, le_trans b1 b2, ?_, ?_⟩
  · rw [retsOf_append, freesOf_append, a1, a2]
  · intro x hx
    rw [retsOf_append, List.mem_append] at hx
    rcases hx with hx | hx
    · exact ⟨(c1 x hx).1, lt_of_lt_of_le (c1 x hx).2 b2⟩
    · exact ⟨le_trans b1 (c2 x hx).1, (c2 x hx).2⟩
  · rw [retsOf_append, List.map_append]
    refine List.Nodup.append d1 d2 ?_
    intro n hn1 hn2
    rw [List.mem_map] at hn1 hn2
    obtain ⟨x, hx, hxn⟩ := hn1
    obtain ⟨y, hy, hyn⟩ := hn2
    have hxlt : x.2 < np2 := (c1 x hx).2
    have hyge : np2 ≤ y.2 := (c2 y hy).1
    omega

theorem acquireString_segSpec (o : PluginId) (np : Nat) (ret : Option String) :
    SegSpec np (acquireString o np ret).2.1 (acquireString o np ret).2.2 := by
  cases ret <;> simp [acquireString, SegSpec, retsOf, freesOf]

theorem loadModule_segSpec (codec : Codec) (host : osr_host_api)
    (pid : PluginId) (np : Nat) (m : PluginModule) :
    SegSpec np (loadModule codec host pid np m).2.1
      (loadModule codec host pid np m).2.2 := by
  unfold loadModule
  split
  · simp [SegSpec, retsOf, freesOf]
  · split
    · simp [SegSpec, retsOf, freesOf]
    · split
      · simp [SegSpec, retsOf, freesOf]
      · split
        · simp [SegSpec, retsOf, freesOf]
        · rename_i hop xa api heqa xb nv heqb xc ctx heqc
          have h := acquireString_segSpec pid np (api.get_manifest ctx)
          obtain ⟨h1, h2, h3, h4⟩ := h
          exact ⟨by simpa [retsOf, freesOf] using h1, h2,
            by simpa [retsOf] using h3, by simpa [retsOf] using h4⟩

theorem retsOf_eq_nil {tr : List Event}
    (h : ∀ o p, Event.pluginReturned o p ∉ tr) : retsOf tr = [] := by
  induction tr with
  | nil => rfl
  | cons e tr ih =>
      cases e with
      | pluginReturned o p => exact absurd (List.mem_cons_self _ _) (h o p)
      | _ =>
          simp only [retsOf]
          exact ih (fun o p hm => h o p (List.mem_cons_of_mem _ hm))

theorem freesOf_eq_nil {tr : List Event}
    (h : ∀ o p, Event.freeString o p ∉ tr) : freesOf tr = [] := by
  induction tr with
  | nil => rfl
  | cons e tr ih =>
      cases e with
      | freeString o p => exact absurd (List.mem_cons_self _ _) (h o p)
      | _ =>
          simp only [freesOf]
          exact ih (fun o p hm => h o p (List.mem_cons_of_mem _ hm))

theorem broadcast_trace_aux (key value : String) :
    ∀ hs : List Handle,
      ((hs.map (notifyHandle key value)).map Prod.fst).flatten =
        (hs.filter
          (fun h => decide (h.st = LifeState.active) && (configHook h).isSome)).map
          (fun h => Event.callConfigChanged h.pid)
  | [] => rfl
  | h :: rest => by
      simp only [List.map_cons, List.flatten_cons, List.filter_cons]
      rw [broadcast_trace_aux key value rest]
      by_cases hst : h.st = LifeState.active
      · cases hc : configHook h with
        | none => simp [notifyHandle, hst, hc]
        | some f => simp [notifyHandle, hst, hc]
      · simp [notifyHandle, hst]

/-- The config-change broadcast trace: one `callConfigChanged` event per
Handle that is in its Active window and has a non-null hook, in load
order. -/
theorem configBroadcast_trace (s : HostState) (key value : String) :
    (configBroadcast s key value).2 =
      (s.handles.filter
        (fun h => decide (h.st = LifeState.active) && (configHook h).isSome)).map
        (fun h => Event.callConfigChanged h.pid) :=
  broadcast_trace_aux key value s.handles

theorem configBroadcast_errors (s : HostState) (key value : String) :
    (configBroadcast s key value).1.errors =
      s.errors ++ ((s.handles.map (notifyHandle key value)).map Prod.snd).flatten :=
  rfl

theorem configBroadcast_handles (s : HostState) (key value : String) :
    (configBroadcast s key value).1.handles = s.handles := rfl

theorem configBroadcast_nextPtr (s : HostState) (key value : String) :
    (configBroadcast s key value).1.nextPtr = s.nextPtr := rfl

theorem configBroadcast_nextPid (s : HostState) (key value : String) :
    (configBroadcast s key value).1.nextPid = s.nextPid := rfl

theorem configBroadcast_trace_events (s : HostState) (key value : String)
    (e : Event) (he : e ∈ (configBroadcast s key value).2) :
    ∃ h, h ∈ s.handles ∧ h.st = LifeState.active ∧
      (configHook h).isSome = true ∧ e = Event.callConfigChanged h.pid := by
  rw [configBroadcast_trace] at he
  rw [List.mem_map] at he
  obtain ⟨h, hh, rfl⟩ := he
  rw [List.mem_filter] at hh
  refine ⟨h, hh.1, ?_, ?_, rfl⟩
  · have := hh.2
    simp only [Bool.and_eq_true, decide_eq_true_eq] at this
    exact this.1
  · have := hh.2
    simp only [Bool.and_eq_true, decide_eq_true_eq] at this
    exact this.2

theorem destroyHandle_nextPtr (s : HostState) (p : PluginId) :
    (destroyHandle s p).1.nextPtr = s.nextPtr := by
  unfold destroyHandle; split <;> first | rfl | (split <;> rfl)

theorem destroyHandle_nextPid (s : HostState) (p : PluginId) :
    (destroyHandle s p).1.nextPid = s.nextPid := by
  unfold destroyHandle; split <;> first | rfl | (split <;> rfl)

theorem destroyHandle_trace (s : HostState) (p : PluginId) :
    (destroyHandle s p).2 = [] ∨ (destroyHandle s p).2 = [Event.callDestroy p] := by
  unfold destroyHandle
  split
  · exact Or.inl rfl
  · split
    · exact Or.inl rfl
    · exact Or.inr rfl

theorem shutdownAll_nextPtr (ps : List PluginId) :
    ∀ s : HostState, (shutdownAll s ps).1.nextPtr = s.nextPtr := by
  induction ps with
  | nil => intro s; rfl
  | cons p ps ih =>
      intro s
      show (shutdownAll (destroyHandle s p).1 ps).1.nextPtr = s.nextPtr
      rw [ih, destroyHandle_nextPtr]

theorem shutdownAll_nextPid (ps : List PluginId) :
    ∀ s : HostState, (shutdownAll s ps).1.nextPid = s.nextPid := by
  induction ps with
  | nil => intro s; rfl
  | cons p ps ih =>
      intro s
      show (shutdownAll (destroyHandle s p).1 ps).1.nextPid = s.nextPid
      rw [ih, destroyHandle_nextPid]

theorem shutdownAll_trace_events (ps : List PluginId) :
    ∀ (s : HostState) (e : Event), e ∈ (shutdownAll s ps).2 →
      ∃ p, p ∈ ps ∧ e = Event.callDestroy p := by
  induction ps with
  | nil => intro s e he; simp [shutdownAll] at he
  | cons p ps ih =>
      intro s e he
      have he2 : e ∈ (destroyHandle s p).2 ++ (shutdownAll (destroyHandle s p).1 ps).2 := he
      rw [List.mem_append] at he2
      rcases he2 with he2 | he2
      · rcases destroyHandle_trace s p with hd | hd <;> rw [hd] at he2
        · simp at he2
        · rw [List.mem_singleton] at he2
          exact ⟨p, List.mem_cons_self _ _, he2⟩
      · obtain ⟨q, hq, rfl⟩ := ih _ e he2
        exact ⟨q, List.mem_cons_of_mem _ hq, rfl⟩

theorem registerHandle_nextPtr (s : HostState) (h : Handle) :
    (registerHandle s h).nextPtr = s.nextPtr := rfl

theorem registerHandle_nextPid (s : HostState) (h : Handle) :
    (registerHandle s h).nextPid = s.nextPid := rfl

theorem registerHandle_handles (s : HostState) (h : Handle) :
    (registerHandle s h).handles = s.handles ++ [h] := rfl

/-- Every host step's trace respects the string-ownership discipline. -/
theorem hostStep_segSpec (codec : Codec) (host : osr_host_api)
    (s : HostState) (op : Op) :
    SegSpec s.nextPtr (hostStep codec host s op).1.nextPtr
      (hostStep codec host s op).2 := by
  cases op with
  | load m =>
      have h := loadModule_segSpec codec host s.nextPid s.nextPtr m
      simp only [hostStep]
      cases hres : (loadModule codec host s.nextPid s.nextPtr m).1 with
      | error e => simpa [hres] using h
      | ok hh => simpa [hres, registerHandle_nextPtr] using h
  | invoke ty id payload =>
      simp only [hostStep]
      unfold genericInvoke
      cases hfind : findCapability s.handles ⟨ty, id⟩ with
      | none => simp [SegSpec, retsOf, freesOf]
      | some h =>
          have ha := acquireString_segSpec h.pid s.nextPtr
            (h.api.invoke h.ctx ty id payload)
          obtain ⟨h1, h2, h3, h4⟩ := ha
          exact ⟨by simpa [retsOf, freesOf] using h1, h2,
            by simpa [retsOf] using h3, by simpa [retsOf] using h4⟩
  | route method path body =>
      simp only [hostStep]
      unfold dispatchRoute
      cases hfind : findRoute s.handles method path with
      | none => simp [SegSpec, retsOf, freesOf]
      | some pr =>
          obtain ⟨h, r⟩ := pr
          cases hhook : routeHook h with
          | none => simp [hhook, SegSpec, retsOf, freesOf]
          | some f =>
              have ha := acquireString_segSpec h.pid s.nextPtr (f h.ctx body)
              obtain ⟨h1, h2, h3, h4⟩ := ha
              exact ⟨by simpa [hhook, retsOf, freesOf] using h1,
                by simpa [hhook] using h2,
                by simpa [hhook, retsOf] using h3,
                by simpa [hhook, retsOf] using h4⟩
  | configChanged key value =>
      show SegSpec s.nextPtr (configBroadcast s key value).1.nextPtr
        (configBroadcast s key value).2
      rw [configBroadcast_nextPtr]
      have hr : retsOf (configBroadcast s key value).2 = [] := by
        apply retsOf_eq_nil
        intro o p hm
        obtain ⟨h, _, _, _, he⟩ := configBroadcast_trace_events s key value _ hm
        exact Event.noConfusion he
      have hf : freesOf (configBroadcast s key value).2 = [] := by
        apply freesOf_eq_nil
        intro o p hm
        obtain ⟨h, _, _, _, he⟩ := configBroadcast_trace_events s key value _ hm
        exact Event.noConfusion he
      exact ⟨by rw [hr, hf], le_refl _, by rw [hr]; simp, by rw [hr]; simp⟩
  | destroy p =>
      show SegSpec s.nextPtr (destroyHandle s p).1.nextPtr (destroyHandle s p).2
      rw [destroyHandle_nextPtr]
      have hr : retsOf (destroyHandle s p).2 = [] := by
        rcases destroyHandle_trace s p with hd | hd <;> rw [hd] <;> rfl
      have hf : freesOf (destroyHandle s p).2 = [] := by
        rcases destroyHandle_trace s p with hd | hd <;> rw [hd] <;> rfl
      exact ⟨by rw [hr, hf], le_refl _, by rw [hr]; simp, by rw [hr]; simp⟩
  | shutdown =>
      show SegSpec s.nextPtr (shutdownAll s (pids s)).1.nextPtr
        (shutdownAll s (pids s)).2
      rw [shutdownAll_nextPtr]
      have hr : retsOf (shutdownAll s (pids s)).2 = [] := by
        apply retsOf_eq_nil
        intro o p hm
        obtain ⟨q, _, he⟩ := shutdownAll_trace_events (pids s) s _ hm
        exact Event.noConfusion he
      have hf : freesOf (shutdownAll s (pids s)).2 = [] := by
        apply freesOf_eq_nil
        intro o p hm
        obtain ⟨q, _, he⟩ := shutdownAll_trace_events (pids s) s _ hm
        exact Event.noConfusion he
      exact ⟨by rw [hr, hf], le_refl _, by rw [hr]; simp, by rw [hr]; simp⟩

/-- Every run's trace respects the string-ownership discipline. -/
theorem runHost_traceSpec (codec : Codec) (host : osr_host_api) :
    ∀ (ops : List Op) (s : HostState),
      TraceSpec s.nextPtr (runHost codec host s ops).1.nextPtr
        (runHost codec host s ops).2
  | [], s =>
      ⟨rfl, le_refl _, by intro x hx; simp [runHost, retsOf] at hx,
        by simp [runHost, retsOf]⟩
  | op :: ops, s => by
      have h1 := (hostStep_segSpec codec host s op).toTraceSpec
      have h2 := runHost_traceSpec codec host ops (hostStep codec host s op).1
      show TraceSpec s.nextPtr
        (runHost codec host (hostStep codec host s op).1 ops).1.nextPtr
        ((hostStep codec host s op).2 ++
          (runHost codec host (hostStep codec host s op).1 ops).2)
      exact h1.append h2

theorem count_le_count_map_snd (l : List (PluginId × Nat)) (x : PluginId × Nat) :
    l.count x ≤ (l.map Prod.snd).count x.2 := by
  induction l with
  | nil => simp
  | cons a l ih =>
      rw [List.count_cons, List.map_cons, List.count_cons]
      by_cases h : a = x
      · subst h; simp; omega
      · simp [h]; split <;> omega

theorem nodup_map_snd_owner_unique {l : List (PluginId × Nat)}
    (hnd : (l.map Prod.snd).Nodup) {o o2 : PluginId} {p : Nat}
    (h1 : (o, p) ∈ l) (h2 : (o2, p) ∈ l) : o = o2 := by
  induction l with
  | nil => simp at h1
  | cons a l ih =>
      rw [List.map_cons, List.nodup_cons] at hnd
      rcases List.mem_cons.mp h1 with ha1 | ha1
      · rcases List.mem_cons.mp h2 with ha2 | ha2
        · have hpp : (o, p) = (o2, p) := ha1.trans ha2.symm
          exact (Prod.mk.injEq _ _ _ _ |>.mp hpp).1
        · exfalso
          apply hnd.1
          have hp := List.mem_map_of_mem Prod.snd ha2
          rw [← ha1]
          exact hp
      · rcases List.mem_cons.mp h2 with ha2 | ha2
        · exfalso
          apply hnd.1
          have hp := List.mem_map_of_mem Prod.snd ha1
          rw [← ha2]
          exact hp
        · exact ih hnd.2 ha1 ha2

/-- C1: every non-null string a plugin returns to the host from
`get_manifest`, `invoke` or `handle_route` (the `pluginReturned` events; in
this model these are the only plugin functions returning strings) is
released via that same plugin's `free_string` exactly once on every code
path — each buffer's return count equals its free count and is at most
one, every `free_string` call matches a buffer the same plugin produced
(so a null return, or another plugin's buffer, or a host-owned string is
never passed to the deallocator), and a buffer id never belongs to two
plugins. -/
theorem owned_strings_freed_exactly_once (codec : Codec) (host : osr_host_api)
    (ops : List Op) :
    (∀ o ptr, ((runHost codec host initState ops).2).count (Event.pluginReturned o ptr) =
        ((runHost codec host initState ops).2).count (Event.freeString o ptr)) ∧
    (∀ o ptr, ((runHost codec host initState ops).2).count (Event.pluginReturned o ptr) ≤ 1) ∧
    (∀ o ptr, Event.freeString o ptr ∈ (runHost codec host initState ops).2 →
        Event.pluginReturned o ptr ∈ (runHost codec host initState ops).2) ∧
    (∀ o o2 ptr, Event.pluginReturned o ptr ∈ (runHost codec host initState ops).2 →
        Event.pluginReturned o2 ptr ∈ (runHost codec host initState ops).2 → o = o2) := by
  obtain ⟨heq, _, _, hnd⟩ := runHost_traceSpec codec host ops initState
  refine ⟨?_, ?_, ?_, ?_⟩
  · intro o ptr
    rw [← count_retsOf, ← count_freesOf, heq]
  · intro o ptr
    rw [← count_retsOf]
    calc (retsOf (runHost codec host initState ops).2).count (o, ptr)
        ≤ ((retsOf (runHost codec host initState ops).2).map Prod.snd).count ptr :=
          count_le_count_map_snd _ (o, ptr)
      _ ≤ 1 := List.nodup_iff_count_le_one.mp hnd ptr
  · intro o ptr hm
    rw [← mem_freesOf, ← heq, mem_retsOf] at hm
    exact hm
  · intro o o2 ptr hm1 hm2
    rw [← mem_retsOf] at hm1 hm2
    exact nodup_map_snd_owner_unique hnd hm1 hm2

/-- Witness for C1 at a concrete run: loading `modA` produces one manifest
buffer that is returned and freed. -/
theorem owned_strings_freed_exactly_once_witness :
    Event.freeString 0 0 ∈ (runHost codecW hostW initState [Op.load modA]).2 ∧
    Event.pluginReturned 0 0 ∈ (runHost codecW hostW initState [Op.load modA]).2 := by
  have htr : (runHost codecW hostW initState [Op.load modA]).2 =
      [Event.callInit 0, Event.pluginReturned 0 0, Event.freeString 0 0] := rfl
  refine ⟨by rw [htr]; simp, ?_⟩
  exact (owned_strings_freed_exactly_once codecW hostW [Op.load modA]).2.2.1 0 0
    (by rw [htr]; simp)

/-- A concrete API table whose `version` field is 1 (the header's
`OSR_ABI_VERSION_1` constant), which the loader does not recognize. -/
def apiVer1 : osr_plugin_api := { apiV2A with version := 1 }

/-- A concrete module handing out `apiVer1`. -/
def modVer1 : PluginModule := ⟨true, some (fun _ => some apiVer1), none⟩

/-- The load-failure conditions exactly as the specification enumerates
them (for comparison with the loader's behaviour): the module cannot be
opened, neither entry symbol resolves, `init` returns a null context, or
the declared version is unrecognized. -/
def specLoadFailConds (host : osr_host_api) (m : PluginModule) : Prop :=
  m.openable = false
  ∨ (m.osaurus_plugin_entry_v2 = none ∧ m.osaurus_plugin_entry = none)
  ∨ (∃ api, entryResult host m = .ok api ∧
      (api.init = none ∨ negotiateVersion api.version = none))

/-- C2: the loader resolves `osaurus_plugin_entry_v2` first and calls it
with the process's Host Callback Table; only when that symbol is absent
does it resolve and call `osaurus_plugin_entry` with no arguments; a v2
entry that resolves but returns null is a load failure, not a fallback to
v1; and `loadModule` on an openable module propagates exactly what the
entry resolution produced. -/
theorem loader_prefers_entry_v2 (codec : Codec) (host : osr_host_api)
    (pid : PluginId) (np : Nat) (m : PluginModule) :
    (∀ f api, m.osaurus_plugin_entry_v2 = some f → f host = some api →
        entryResult host m = .ok api) ∧
    (∀ f, m.osaurus_plugin_entry_v2 = some f → f host = none →
        entryResult host m = .error .nullApi) ∧
    (∀ g api, m.osaurus_plugin_entry_v2 = none → m.osaurus_plugin_entry = some g →
        g () = some api → entryResult host m = .ok api) ∧
    (∀ g, m.osaurus_plugin_entry_v2 = none → m.osaurus_plugin_entry = some g →
        g () = none → entryResult host m = .error .nullApi) ∧
    (m.osaurus_plugin_entry_v2 = none → m.osaurus_plugin_entry = none →
        entryResult host m = .error .noEntrySymbol) ∧
    (∀ e, m.openable = true → entryResult host m = .error e →
        (loadModule codec host pid np m).1 = .error e) := by
  refine ⟨?_, ?_, ?_, ?_, ?_, ?_⟩
  · intro f api h1 h2; simp [entryResult, h1, h2]
  · intro f h1 h2; simp [entryResult, h1, h2]
  · intro g api h1 h2 h3; simp [entryResult, h1, h2, h3]
  · intro g h1 h2 h3; simp [entryResult, h1, h2, h3]
  · intro h1 h2; simp [entryResult, h1, h2]
  · intro e hop hE; simp [loadModule, hop, hE]

/-- Witness for C2: the v2 module `modA` resolves through the v2 entry
with the concrete Host Callback Table. -/
theorem loader_prefers_entry_v2_witness :
    entryResult hostW modA = .ok apiV2A :=
  (loader_prefers_entry_v2 codecW hostW 0 0 modA).1 _ apiV2A rfl rfl

theorem entryResult_error_cases (host : osr_host_api) (m : PluginModule)
    (e : LoadError) (h : entryResult host m = .error e) :
    (e = .noEntrySymbol ∧ m.osaurus_plugin_entry_v2 = none ∧
      m.osaurus_plugin_entry = none) ∨ e = .nullApi := by
  cases hv2 : m.osaurus_plugin_entry_v2 with
  | some f =>
      cases hf : f host with
      | some api =>
          rw [show entryResult host m = .ok api by simp [entryResult, hv2, hf]] at h
          exact Except.noConfusion h
      | none =>
          rw [show entryResult host m = .error .nullApi by
            simp [entryResult, hv2, hf]] at h
          exact Or.inr (Except.error.inj h).symm
  | none =>
      cases hv1 : m.osaurus_plugin_entry with
      | some g =>
          cases hg : g () with
          | some api =>
              rw [show entryResult host m = .ok api by
                simp [entryResult, hv2, hv1, hg]] at h
              exact Except.noConfusion h
          | none =>
              rw [show entryResult host m = .error .nullApi by
                simp [entryResult, hv2, hv1, hg]] at h
              exact Or.inr (Except.error.inj h).symm
      | none =>
          rw [show entryResult host m = .error .noEntrySymbol by
            simp [entryResult, hv2, hv1]] at h
          exact Or.inl ⟨(Except.error.inj h).symm, hv2 ▸ rfl, hv1 ▸ rfl⟩

theorem loadModule_isError_iff (codec : Codec) (host : osr_host_api)
    (pid : PluginId) (np : Nat) (m : PluginModule) :
    (∃ e, (loadModule codec host pid np m).1 = Except.error e) ↔
      (m.openable = false ∨ (∃ e, entryResult host m = .error e) ∨
        (∃ api, entryResult host m = .ok api ∧
          (api.init = none ∨ negotiateVersion api.version = none))) := by
  unfold loadModule
  by_cases hop : m.openable = false
  · simp [hop]
  · simp only [hop, if_false]
    cases hE : entryResult host m with
    | error e => simp [hE]
    | ok api =>
        cases hV : negotiateVersion api.version with
        | none => simp [hE, hV]
        | some nv =>
            cases hI : api.init with
            | none => simp [hE, hV, hI]
            | some ctx => simp [hE, hV, hI]

/-- C3 counterexample: the module `modNullApi` is openable and its v2
entry symbol resolves (so none of the spec's enumerated load-failure
conditions holds), yet loading it fails — the spec's "exactly when" list
is incomplete. -/
theorem load_failure_list_incomplete :
    (∃ e, (loadModule codecW hostW 0 0 modNullApi).1 = Except.error e) ∧
    ¬ specLoadFailConds hostW modNullApi := by
  constructor
  · exact ⟨LoadError.nullApi, rfl⟩
  · intro h
    rcases h with h | ⟨h1, h2⟩ | ⟨api, h1, h2⟩
    · simp [modNullApi] at h
    · simp [modNullApi] at h1
    · rw [show entryResult hostW modNullApi = Except.error LoadError.nullApi from rfl] at h1
      exact Except.noConfusion h1

/-- C3 (amended): loading fails exactly when the module cannot be opened,
neither entry symbol resolves, a resolved entry returns a null API table,
`init` returns a null context, or the declared version is unrecognized —
in particular a version field equal to 1 (`OSR_ABI_VERSION_1`) fails the
load; a failed load registers nothing (not half-registered) and a
successful load registers exactly one Plugin Handle. -/
theorem load_failure_conditions (codec : Codec) (host : osr_host_api)
    (pid : PluginId) (np : Nat) (m : PluginModule) (s : HostState) :
    ((∃ e, (loadModule codec host pid np m).1 = Except.error e) ↔
      (specLoadFailConds host m ∨ entryResult host m = .error .nullApi)) ∧
    (∀ api, m.openable = true → entryResult host m = .ok api → api.version = 1 →
      (loadModule codec host pid np m).1 = .error (.unrecognizedVersion 1)) ∧
    ((∃ e, (loadModule codec host s.nextPid s.nextPtr m).1 = Except.error e) →
      (hostStep codec host s (.load m)).1.handles = s.handles) ∧
    (∀ h, (loadModule codec host s.nextPid s.nextPtr m).1 = Except.ok h →
      (hostStep codec host s (.load m)).1.handles = s.handles ++ [h]) := by
  refine ⟨?_, ?_, ?_, ?_⟩
  · rw [loadModule_isError_iff]
    unfold specLoadFailConds
    constructor
    · rintro (h | ⟨e, he⟩ | ⟨api, hok, hc⟩)
      · exact Or.inl (Or.inl h)
      · rcases entryResult_error_cases host m e he with ⟨rfl, h1, h2⟩ | rfl
        · exact Or.inl (Or.inr (Or.inl ⟨h1, h2⟩))
        · exact Or.inr he
      · exact Or.inl (Or.inr (Or.inr ⟨api, hok, hc⟩))
    · rintro ((h | ⟨h1, h2⟩ | ⟨api, hok, hc⟩) | he)
      · exact Or.inl h
      · exact Or.inr (Or.inl ⟨.noEntrySymbol, by simp [entryResult, h1, h2]⟩)
      · exact Or.inr (Or.inr ⟨api, hok, hc⟩)
      · exact Or.inr (Or.inl ⟨.nullApi, he⟩)
  · intro api hop hok hv
    simp [loadModule, hop, hok, hv, show negotiateVersion 1 = none from rfl]
  · rintro ⟨e, he⟩
    simp [hostStep, he]
  · intro h hok
    simp [hostStep, hok, registerHandle_handles]

/-- Witness for C3 at a concrete module: loading `modVer1` (version field
1) fails with an unrecognized-version error. -/
theorem load_failure_conditions_witness :
    (loadModule codecW hostW 0 0 modVer1).1 =
      .error (.unrecognizedVersion 1) :=
  (load_failure_conditions codecW hostW 0 0 modVer1 initState).2.1 apiVer1
    rfl rfl rfl

/-- C10: a module whose resolved entry function (v2 or v1) returns a null
`osr_plugin_api` pointer fails to load and produces no Plugin Handle. -/
theorem null_api_load_fails (codec : Codec) (host : osr_host_api)
    (pid : PluginId) (np : Nat) (m : PluginModule) (s : HostState) :
    (∀ f, m.openable = true → m.osaurus_plugin_entry_v2 = some f →
      f host = none → (loadModule codec host pid np m).1 = .error .nullApi) ∧
    (∀ g, m.openable = true → m.osaurus_plugin_entry_v2 = none →
      m.osaurus_plugin_entry = some g → g () = none →
      (loadModule codec host pid np m).1 = .error .nullApi) ∧
    (∀ f, m.osaurus_plugin_entry_v2 = some f → f host = none →
      (hostStep codec host s (.load m)).1.handles = s.handles) := by
  refine ⟨?_, ?_, ?_⟩
  · intro f hop h1 h2
    simp [loadModule, hop, entryResult, h1, h2]
  · intro g hop h1 h2 h3
    simp [loadModule, hop, entryResult, h1, h2, h3]
  · intro f h1 h2
    have hE : entryResult host m = .error .nullApi := by
      simp [entryResult, h1, h2]
    by_cases hop : m.openable = false
    · have : (loadModule codec host s.nextPid s.nextPtr m).1 = .error .openFailed := by
        simp [loadModule, hop]
      simp [hostStep, this]
    · have : (loadModule codec host s.nextPid s.nextPtr m).1 = .error .nullApi := by
        simp [loadModule, hop, hE]
      simp [hostStep, this]

/-- Witness for C10: `modNullApi` fails with a null-API error and loading
it registers no Handle. -/
theorem null_api_load_fails_witness :
    (loadModule codecW hostW 0 0 modNullApi).1 = .error .nullApi ∧
    (hostStep codecW hostW initState (.load modNullApi)).1.handles = [] := by
  constructor
  · exact (null_api_load_fails codecW hostW 0 0 modNullApi initState).1 _ rfl rfl rfl
  · exact (null_api_load_fails codecW hostW 0 0 modNullApi initState).2.2 _ rfl rfl

theorem findCapability_eq_none (c : Capability) :
    ∀ hs : List Handle, (∀ h ∈ hs, ¬ advertises h c) →
      findCapability hs c = none
  | [], _ => rfl
  | h :: rest, hno => by
      unfold findCapability
      rw [if_neg]
      · exact findCapability_eq_none c rest
          (fun h2 hm => hno h2 (List.mem_cons_of_mem _ hm))
      · rintro ⟨hst, hadv⟩
        exact hno h (List.mem_cons_self _ _) hadv

theorem findCapability_unique (c : Capability) :
    ∀ (hs : List Handle) (h : Handle), h ∈ hs → h.st = LifeState.active →
      advertises h c → (∀ h2 ∈ hs, advertises h2 c → h2 = h) →
      findCapability hs c = some h
  | [], h, hm, _, _, _ => absurd hm (List.not_mem_nil _)
  | h0 :: rest, h, hm, hact, hadv, huniq => by
      unfold findCapability
      by_cases hcond : h0.st = LifeState.active ∧ advertises h0 c
      · rw [if_pos hcond]
        rw [huniq h0 (List.mem_cons_self _ _) hcond.2]
      · rw [if_neg hcond]
        rcases List.mem_cons.mp hm with heq | hm2
        · exact absurd ⟨heq ▸ hact, heq ▸ hadv⟩ hcond
        · exact findCapability_unique c rest h hm2 hact hadv
            (fun h2 hm3 => huniq h2 (List.mem_cons_of_mem _ hm3))

/-- C4: a generic invocation whose (type, id) pair no loaded Manifest
advertises returns "capability not found" without calling any plugin's
`invoke` (the trace is empty); when exactly one loaded Handle advertises
the pair (and is in its Active window), that plugin's `invoke` is called
and a well-formed-JSON result is passed through as the response while a
non-well-formed result becomes a protocol error — a category distinct from
the pass-through responses that carry plugin-signalled application
errors. -/
theorem generic_invoke_dispatch (codec : Codec) (s : HostState)
    (ty id payload : String) :
    ((∀ h ∈ s.handles, ¬ advertises h ⟨ty, id⟩) →
      genericInvoke codec s ty id payload = (.notFound, s, [])) ∧
    (∀ h, h ∈ s.handles → h.st = LifeState.active → advertises h ⟨ty, id⟩ →
      (∀ h2 ∈ s.handles, advertises h2 ⟨ty, id⟩ → h2 = h) →
      Event.callInvoke h.pid ∈ (genericInvoke codec s ty id payload).2.2 ∧
      (∀ str, h.api.invoke h.ctx ty id payload = some str →
        (codec.wfJson str = true →
            (genericInvoke codec s ty id payload).1 = .ok str) ∧
        (codec.wfJson str = false →
            (genericInvoke codec s ty id payload).1 = .protocolError))) ∧
    (∀ str, InvokeOutcome.protocolError ≠ InvokeOutcome.ok str) := by
  refine ⟨?_, ?_, ?_⟩
  · intro hno
    unfold genericInvoke
    rw [findCapability_eq_none _ _ hno]
  · intro h hm hact hadv huniq
    have hfind := findCapability_unique ⟨ty, id⟩ s.handles h hm hact hadv huniq
    refine ⟨?_, ?_⟩
    · unfold genericInvoke
      rw [hfind]
      cases hstr : h.api.invoke h.ctx ty id payload <;>
        simp [hstr, acquireString]
    · intro str hstr
      constructor <;> intro hwf <;> unfold genericInvoke <;> rw [hfind] <;>
        simp [hstr, acquireString, hwf]
  · intro str h
    exact InvokeOutcome.noConfusion h

/-- A v2 plugin whose config-change hook signals a failure and whose
manifest is empty. -/
def apiB : osr_plugin_api :=
  { init := some 9
    destroy := fun _ => true
    get_manifest := fun _ => none
    invoke := fun _ _ _ _ => none
    version := 2
    handle_route := none
    on_config_changed := some (fun _ _ _ => false) }

/-- A concrete module handing out `apiB`. -/
def modB : PluginModule := ⟨true, some (fun _ => some apiB), none⟩

/-- The Handle the loader produces for `modA` as the first load. -/
def hA : Handle := ⟨0, 2, 7, apiV2A, mfA, .active⟩

/-- The Handle the loader produces for `modB` as the second load. -/
def hB : Handle := ⟨1, 2, 9, apiB, Manifest.empty, .active⟩

/-- The host state after loading `modA`. -/
def stateA : HostState := (runHost codecW hostW initState [Op.load modA]).1

/-- The host state after loading `modA` then `modB`. -/
def stateAB : HostState :=
  (runHost codecW hostW initState [Op.load modA, Op.load modB]).1

/-- Witness for C4: in `stateA` (only `modA` loaded), invoking the one
advertised capability returns the plugin's well-formed JSON response. -/
theorem generic_invoke_dispatch_witness :
    (genericInvoke codecW stateA "tool" "t1" "x").1 = .ok "{}" := by
  have hh : stateA.handles = [hA] := rfl
  have h2 := (generic_invoke_dispatch codecW stateA "tool" "t1" "x").2.1 hA
    (by rw [hh]; exact List.mem_singleton.mpr rfl) rfl
    (by show Capability.mk "tool" "t1" ∈ mfA.capabilities; simp [mfA])
    (by intro h2 hm _
        rw [hh] at hm
        exact List.mem_singleton.mp hm)
  exact (h2.2 "{}" rfl).1 rfl

/-- C6: one config-change event is delivered synchronously, in load order,
to exactly the loaded (Active) Handles whose `on_config_changed` hook is
non-null — the broadcast trace is literally the hook-bearing Handles in
list order; a failure one plugin signals during delivery is recorded as a
per-plugin error, and every hook-bearing Handle appears in the broadcast
trace regardless of any other plugin's failure (the broadcast always
completes). -/
theorem config_broadcast_in_load_order (s : HostState) (key value : String) :
    ((configBroadcast s key value).2 =
      (s.handles.filter
        (fun h => decide (h.st = LifeState.active) && (configHook h).isSome)).map
        (fun h => Event.callConfigChanged h.pid)) ∧
    (∀ h f, h ∈ s.handles → h.st = LifeState.active → configHook h = some f →
      f h.ctx key value = false →
      HostError.configChangeFailed h.pid key ∈
        (configBroadcast s key value).1.errors) ∧
    (∀ h f, h ∈ s.handles → h.st = LifeState.active → configHook h = some f →
      Event.callConfigChanged h.pid ∈ (configBroadcast s key value).2) := by
  refine ⟨configBroadcast_trace s key value, ?_, ?_⟩
  · intro h f hm hact hc hf
    rw [configBroadcast_errors]
    rw [List.mem_append]
    right
    rw [List.mem_flatten]
    refine ⟨(notifyHandle key value h).2, ?_, ?_⟩
    · exact List.mem_map_of_mem Prod.snd (List.mem_map_of_mem _ hm)
    · simp [notifyHandle, hact, hc, hf]
  · intro h f hm hact hc
    rw [configBroadcast_trace]
    rw [List.mem_map]
    refine ⟨h, ?_, rfl⟩
    rw [List.mem_filter]
    exact ⟨hm, by simp [hact, hc]⟩

/-- Witness for C6: with `modA` and `modB` loaded, both hooked plugins are
notified in load order even though `modB`'s hook signals a failure, and
that failure is recorded. -/
theorem config_broadcast_in_load_order_witness :
    Event.callConfigChanged 0 ∈ (configBroadcast stateAB "k" "v2").2 ∧
    Event.callConfigChanged 1 ∈ (configBroadcast stateAB "k" "v2").2 ∧
    HostError.configChangeFailed 1 "k" ∈ (configBroadcast stateAB "k" "v2").1.errors := by
  have hh : stateAB.handles = [hA, hB] := rfl
  refine ⟨?_, ?_, ?_⟩
  · exact (config_broadcast_in_load_order stateAB "k" "v2").2.2 hA _
      (by rw [hh]; simp) rfl rfl
  · exact (config_broadcast_in_load_order stateAB "k" "v2").2.2 hB _
      (by rw [hh]; simp) rfl rfl
  · exact (config_broadcast_in_load_order stateAB "k" "v2").2.1 hB _
      (by rw [hh]; simp) rfl rfl rfl

theorem findRoute_eq_none (method path : String) :
    ∀ hs : List Handle,
      (∀ h ∈ hs, h.st = LifeState.active →
        ∀ r ∈ h.manifest.routes, ¬ routeMatches r method path) →
      findRoute hs method path = none
  | [], _ => rfl
  | h :: rest, hno => by
      unfold findRoute
      by_cases hst : h.st = LifeState.active
      · rw [if_pos hst]
        have hfind : h.manifest.routes.find?
            (fun r => decide (routeMatches r method path)) = none := by
          rw [List.find?_eq_none]
          intro r hr
          simp only [decide_eq_true_eq]
          exact hno h (List.mem_cons_self _ _) hst r hr
        rw [hfind]
        exact findRoute_eq_none method path rest
          (fun h2 hm => hno h2 (List.mem_cons_of_mem _ hm))
      · rw [if_neg hst]
        exact findRoute_eq_none method path rest
          (fun h2 hm => hno h2 (List.mem_cons_of_mem _ hm))

theorem findRoute_sound (method path : String) :
    ∀ (hs : List Handle) (h : Handle) (r : Route),
      findRoute hs method path = some (h, r) →
      h ∈ hs ∧ h.st = LifeState.active ∧ r ∈ h.manifest.routes ∧
        routeMatches r method path ∧
        ∃ pre post, hs = pre ++ h :: post ∧
          ∀ h2 ∈ pre, h2.st = LifeState.active →
            ∀ r2 ∈ h2.manifest.routes, ¬ routeMatches r2 method path
  | [], h, r, hf => by simp [findRoute] at hf
  | h0 :: rest, h, r, hf => by
      unfold findRoute at hf
      by_cases hst : h0.st = LifeState.active
      · rw [if_pos hst] at hf
        cases hfind : h0.manifest.routes.find?
            (fun r => decide (routeMatches r method path)) with
        | some r0 =>
            rw [hfind] at hf
            have hinj : h0 = h ∧ r0 = r := by
              have := Option.some.inj hf
              exact ⟨congrArg Prod.fst this, congrArg Prod.snd this⟩
            obtain ⟨rfl, rfl⟩ := hinj
            refine ⟨List.mem_cons_self _ _, hst,
              List.mem_of_find?_eq_some hfind, ?_, [], rest, rfl, ?_⟩
            · have := List.find?_some hfind
              simpa using this
            · intro h2 hm
              simp at hm
        | none =>
            rw [hfind] at hf
            obtain ⟨hmem, hact, hr, hmatch, pre, post, hsplit, hpre⟩ :=
              findRoute_sound method path rest h r hf
            refine ⟨List.mem_cons_of_mem _ hmem, hact, hr, hmatch,
              h0 :: pre, post, by rw [hsplit]; rfl, ?_⟩
            intro h2 hm2 hact2 r2 hr2 hmatch2
            rcases List.mem_cons.mp hm2 with heq | hm2'
            · subst heq
              have := List.find?_eq_none.mp hfind r2 hr2
              simp only [decide_eq_true_eq] at this
              exact this hmatch2
            · exact hpre h2 hm2' hact2 r2 hr2 hmatch2
      · rw [if_neg hst] at hf
        obtain ⟨hmem, hact, hr, hmatch, pre, post, hsplit, hpre⟩ :=
          findRoute_sound method path rest h r hf
        refine ⟨List.mem_cons_of_mem _ hmem, hact, hr, hmatch,
          h0 :: pre, post, by rw [hsplit]; rfl, ?_⟩
        intro h2 hm2 hact2 r2 hr2 hmatch2
        rcases List.mem_cons.mp hm2 with heq | hm2'
        · exact hst (heq ▸ hact2)
        · exact hpre h2 hm2' hact2 r2 hr2 hmatch2

/-- C8: an inbound request is matched against the union of the declared
routes of all loaded Manifests with first-match-wins load order (no active
Handle before the matched one declares a matching route); `handle_route`
runs only when the matched Handle's hook is non-null, with a
well-formed-JSON response returned verbatim and a malformed one surfaced
as a protocol error; a matched declared route whose Handle has a null
`handle_route` yields a configuration error that is recorded, with no
`handle_route` call; and a newly loaded Handle declaring a route an
earlier Handle already declared gets a collision error recorded at
registration time. -/
theorem route_dispatch_first_match (codec : Codec) (host : osr_host_api)
    (s : HostState) (method path body : String) :
    ((∀ h ∈ s.handles, h.st = LifeState.active →
        ∀ r ∈ h.manifest.routes, ¬ routeMatches r method path) →
      dispatchRoute codec s method path body = (.noRoute, s, [])) ∧
    (∀ h r, findRoute s.handles method path = some (h, r) →
      h ∈ s.handles ∧ h.st = LifeState.active ∧ r ∈ h.manifest.routes ∧
        routeMatches r method path ∧
        ∃ pre post, s.handles = pre ++ h :: post ∧
          ∀ h2 ∈ pre, h2.st = LifeState.active →
            ∀ r2 ∈ h2.manifest.routes, ¬ routeMatches r2 method path) ∧
    (∀ h r f, findRoute s.handles method path = some (h, r) →
      routeHook h = some f →
      Event.callRoute h.pid ∈ (dispatchRoute codec s method path body).2.2 ∧
      (∀ str, f h.ctx body = some str →
        (codec.wfJson str = true →
          (dispatchRoute codec s method path body).1 = .ok str) ∧
        (codec.wfJson str = false →
          (dispatchRoute codec s method path body).1 = .protocolError))) ∧
    (∀ h r, findRoute s.handles method path = some (h, r) → routeHook h = none →
      (dispatchRoute codec s method path body).1 = .configError ∧
      HostError.nullRouteHandler h.pid r ∈
        (dispatchRoute codec s method path body).2.1.errors ∧
      (dispatchRoute codec s method path body).2.2 = []) ∧
    (∀ m hh r h2, (loadModule codec host s.nextPid s.nextPtr m).1 = Except.ok hh →
      r ∈ hh.manifest.routes → h2 ∈ s.handles → r ∈ h2.manifest.routes →
      HostError.routeCollision hh.pid r ∈ (hostStep codec host s (.load m)).1.errors) := by
  refine ⟨?_, ?_, ?_, ?_, ?_⟩
  · intro hno
    unfold dispatchRoute
    rw [findRoute_eq_none _ _ _ hno]
  · intro h r hf
    exact findRoute_sound method path s.handles h r hf
  · intro h r f hf hhook
    refine ⟨?_, ?_⟩
    · unfold dispatchRoute
      rw [hf]
      cases hstr : f h.ctx body <;> simp [hhook, hstr, acquireString]
    · intro str hstr
      constructor <;> intro hwf <;> unfold dispatchRoute <;> rw [hf] <;>
        simp [hhook, hstr, acquireString, hwf]
  · intro h r hf hhook
    unfold dispatchRoute
    rw [hf]
    simp [hhook]
  · intro m hh r h2 hok hr hm2 hr2
    simp only [hostStep, hok]
    show HostError.routeCollision hh.pid r ∈ (registerHandle _ hh).errors
    show HostError.routeCollision hh.pid r ∈
      s.errors ++ (hh.manifest.routes.filter
        (fun r => s.handles.any (fun h3 => decide (r ∈ h3.manifest.routes)))).map
        (HostError.routeCollision hh.pid)
    rw [List.mem_append]
    right
    rw [List.mem_map]
    refine ⟨r, ?_, rfl⟩
    rw [List.mem_filter]
    refine ⟨hr, ?_⟩
    rw [List.any_eq_true]
    exact ⟨h2, hm2, by simp [hr2]⟩

/-- Witness for C8: in `stateA`, a request for GET /widgets is dispatched
to `modA`'s `handle_route` and its JSON response is returned verbatim. -/
theorem route_dispatch_first_match_witness :
    (dispatchRoute codecW stateA "GET" "/widgets" "{}").1 = .ok "{}" := by
  have hf : findRoute stateA.handles "GET" "/widgets" =
      some (hA, ⟨"GET", "/widgets"⟩) := rfl
  have h3 := (route_dispatch_first_match codecW hostW stateA "GET" "/widgets" "{}").2.2.1
    hA ⟨"GET", "/widgets"⟩ _ hf rfl
  exact (h3.2 "{}" rfl).1 rfl

/-! Handle lookup and lifecycle bookkeeping lemmas. -/

theorem findHandle_append_of_some {hs : List Handle} {p : PluginId} {h : Handle}
    (hf : findHandle hs p = some h) (hs2 : List Handle) :
    findHandle (hs ++ hs2) p = some h := by
  induction hs with
  | nil => simp [findHandle] at hf
  | cons h0 rest ih =>
      simp only [findHandle, List.cons_append] at hf ⊢
      by_cases hp : h0.pid = p
      · rw [if_pos hp] at hf ⊢; exact hf
      · rw [if_neg hp] at hf ⊢; exact ih hf

theorem findHandle_append_of_none {hs : List Handle} {p : PluginId}
    (hf : findHandle hs p = none) (hs2 : List Handle) :
    findHandle (hs ++ hs2) p = findHandle hs2 p := by
  induction hs with
  | nil => rfl
  | cons h0 rest ih =>
      simp only [findHandle, List.cons_append] at hf ⊢
      by_cases hp : h0.pid = p
      · rw [if_pos hp] at hf; exact Option.noConfusion hf
      · rw [if_neg hp] at hf ⊢; exact ih hf

theorem findHandle_markDestroyed_ne {p q : PluginId} (hne : p ≠ q) :
    ∀ hs : List Handle, findHandle (markDestroyed hs q) p = findHandle hs p
  | [] => rfl
  | h0 :: rest => by
      unfold markDestroyed
      by_cases hq : h0.pid = q
      · rw [if_pos hq]
        unfold findHandle
        have hp : ¬ h0.pid = p := by rw [hq]; exact fun hc => hne hc.symm
        rw [if_neg hp, if_neg hp]
      · rw [if_neg hq]
        unfold findHandle
        by_cases hp : h0.pid = p
        · rw [if_pos hp, if_pos hp]
        · rw [if_neg hp, if_neg hp]
          exact findHandle_markDestroyed_ne hne rest

theorem findHandle_markDestroyed_self (p : PluginId) :
    ∀ hs : List Handle, findHandle (markDestroyed hs p) p =
      (findHandle hs p).map (fun h => { h with st := LifeState.destroyed })
  | [] => rfl
  | h0 :: rest => by
      unfold markDestroyed
      by_cases hq : h0.pid = p
      · rw [if_pos hq]
        unfold findHandle
        rw [if_pos hq, if_pos hq]
        rfl
      · rw [if_neg hq]
        unfold findHandle
        rw [if_neg hq, if_neg hq]
        exact findHandle_markDestroyed_self p rest

theorem findHandle_mem {p : PluginId} {h : Handle} :
    ∀ {hs : List Handle}, findHandle hs p = some h → h ∈ hs ∧ h.pid = p := by
  intro hs
  induction hs with
  | nil => intro hf; simp [findHandle] at hf
  | cons h0 rest ih =>
      intro hf
      unfold findHandle at hf
      by_cases hp : h0.pid = p
      · rw [if_pos hp] at hf
        obtain rfl := Option.some.inj hf
        exact ⟨List.mem_cons_self _ _, hp⟩
      · rw [if_neg hp] at hf
        obtain ⟨hm, hpid⟩ := ih hf
        exact ⟨List.mem_cons_of_mem _ hm, hpid⟩

theorem findHandle_of_mem_nodup {h : Handle} :
    ∀ {hs : List Handle}, (hs.map (fun h2 => h2.pid)).Nodup → h ∈ hs →
      findHandle hs h.pid = some h := by
  intro hs
  induction hs with
  | nil => intro _ hm; exact absurd hm (List.not_mem_nil _)
  | cons h0 rest ih =>
      intro hnd hm
      rw [List.map_cons, List.nodup_cons] at hnd
      unfold findHandle
      rcases List.mem_cons.mp hm with heq | hm2
      · subst heq
        rw [if_pos rfl]
      · by_cases hp : h0.pid = h.pid
        · exfalso
          apply hnd.1
          rw [hp]
          exact List.mem_map_of_mem _ hm2
        · rw [if_neg hp]
          exact ih hnd.2 hm2

theorem findHandle_isSome_of_mem_pids {p : PluginId} :
    ∀ {hs : List Handle}, p ∈ hs.map (fun h => h.pid) →
      ∃ h, findHandle hs p = some h := by
  intro hs
  induction hs with
  | nil => intro hm; simp at hm
  | cons h0 rest ih =>
      intro hm
      unfold findHandle
      by_cases hp : h0.pid = p
      · exact ⟨h0, by rw [if_pos hp]⟩
      · rw [List.map_cons, List.mem_cons] at hm
        rcases hm with heq | hm2
        · exact absurd heq.symm hp
        · obtain ⟨h, hf⟩ := ih hm2
          exact ⟨h, by rw [if_neg hp]; exact hf⟩

theorem markDestroyed_map_pid (q : PluginId) :
    ∀ hs : List Handle,
      (markDestroyed hs q).map (fun h => h.pid) = hs.map (fun h => h.pid)
  | [] => rfl
  | h0 :: rest => by
      unfold markDestroyed
      by_cases hq : h0.pid = q
      · rw [if_pos hq]; rfl
      · rw [if_neg hq]
        simp only [List.map_cons]
        rw [markDestroyed_map_pid q rest]

/-- The negotiated ABI version of the Handle with plugin id `p`, when
loaded. -/
def versionOf (s : HostState) (p : PluginId) : Option Nat :=
  (findHandle s.handles p).map (fun h => h.abiVersion)

/-- Whether the Handle with plugin id `p` has been destroyed. -/
def destroyedIn (s : HostState) (p : PluginId) : Bool :=
  match findHandle s.handles p with
  | some h => decide (h.st = LifeState.destroyed)
  | none => false

/-- The host-state well-formedness invariant: plugin ids are distinct and
below the fresh-id counter. -/
def Inv (s : HostState) : Prop :=
  (pids s).Nodup ∧ ∀ h ∈ s.handles, h.pid < s.nextPid

theorem Inv_initState : Inv initState :=
  ⟨List.nodup_nil, fun _ hm => absurd hm (List.not_mem_nil _)⟩

/-! Per-operation state-shape lemmas. -/

theorem genericInvoke_handles (codec : Codec) (s : HostState)
    (ty id payload : String) :
    (genericInvoke codec s ty id payload).2.1.handles = s.handles := by
  unfold genericInvoke
  cases findCapability s.handles ⟨ty, id⟩ <;> rfl

theorem genericInvoke_nextPid (codec : Codec) (s : HostState)
    (ty id payload : String) :
    (genericInvoke codec s ty id payload).2.1.nextPid = s.nextPid := by
  unfold genericInvoke
  cases findCapability s.handles ⟨ty, id⟩ <;> rfl

theorem dispatchRoute_handles (codec : Codec) (s : HostState)
    (method path body : String) :
    (dispatchRoute codec s method path body).2.1.handles = s.handles := by
  unfold dispatchRoute
  split
  · rfl
  · split <;> rfl

theorem dispatchRoute_nextPid (codec : Codec) (s : HostState)
    (method path body : String) :
    (dispatchRoute codec s method path body).2.1.nextPid = s.nextPid := by
  unfold dispatchRoute
  split
  · rfl
  · split <;> rfl

theorem destroyHandle_handles (s : HostState) (p : PluginId) :
    (destroyHandle s p).1.handles = s.handles ∨
      (destroyHandle s p).1.handles = markDestroyed s.handles p := by
  unfold destroyHandle
  split
  · exact Or.inl rfl
  · split
    · exact Or.inl rfl
    · exact Or.inr rfl

theorem destroyHandle_pids (s : HostState) (p : PluginId) :
    pids (destroyHandle s p).1 = pids s := by
  rcases destroyHandle_handles s p with h | h <;>
    simp only [pids, h]
  exact markDestroyed_map_pid p s.handles

theorem shutdownAll_pids (ps : List PluginId) :
    ∀ s : HostState, pids (shutdownAll s ps).1 = pids s := by
  induction ps with
  | nil => intro s; rfl
  | cons q ps ih =>
      intro s
      show pids (shutdownAll (destroyHandle s q).1 ps).1 = pids s
      rw [ih, destroyHandle_pids]

theorem negotiateVersion_cases {v nv : Nat} (h : negotiateVersion v = some nv) :
    (v = 0 ∧ nv = 1) ∨ (v = 2 ∧ nv = 2) := by
  unfold negotiateVersion at h
  by_cases h0 : v = 0
  · rw [if_pos h0] at h; exact Or.inl ⟨h0, (Option.some.inj h).symm⟩
  · rw [if_neg h0] at h
    by_cases h2 : v = 2
    · rw [if_pos h2] at h; exact Or.inr ⟨h2, (Option.some.inj h).symm⟩
    · rw [if_neg h2] at h; exact Option.noConfusion h

theorem loadModule_ok_fields {codec : Codec} {host : osr_host_api}
    {pid : PluginId} {np : Nat} {m : PluginModule} {h : Handle}
    (hok : (loadModule codec host pid np m).1 = Except.ok h) :
    h.pid = pid ∧ h.st = LifeState.active ∧
      (h.abiVersion = 1 ∨ h.abiVersion = 2) := by
  unfold loadModule at hok
  split at hok
  · exact Except.noConfusion hok
  · split at hok
    · exact Except.noConfusion hok
    · split at hok
      · exact Except.noConfusion hok
      · split at hok
        · exact Except.noConfusion hok
        · rename_i hop xa api heqa xb nv heqb xc ctx heqc
          obtain rfl := (Except.ok.inj hok).symm
          refine ⟨rfl, rfl, ?_⟩
          rcases negotiateVersion_cases heqb with ⟨_, rfl⟩ | ⟨_, rfl⟩
          · exact Or.inl rfl
          · exact Or.inr rfl

theorem registerHandle_pids (s : HostState) (h : Handle) :
    pids (registerHandle s h) = pids s ++ [h.pid] := by
  simp [pids, registerHandle_handles]

theorem Inv_of_pids_eq {s s2 : HostState} (hp : pids s2 = pids s)
    (hn : s2.nextPid = s.nextPid) (hInv : Inv s) : Inv s2 := by
  obtain ⟨h1, h2⟩ := hInv
  refine ⟨by rw [hp]; exact h1, ?_⟩
  intro h hm
  have hmem : h.pid ∈ pids s2 := List.mem_map_of_mem _ hm
  rw [hp] at hmem
  rw [pids, List.mem_map] at hmem
  obtain ⟨h3, hm3, heq⟩ := hmem
  rw [hn, ← heq]
  exact h2 h3 hm3

theorem hostStep_Inv (codec : Codec) (host : osr_host_api) (s : HostState)
    (op : Op) (hInv : Inv s) : Inv (hostStep codec host s op).1 := by
  obtain ⟨hnd, hbound⟩ := hInv
  cases op with
  | load m =>
      simp only [hostStep]
      split
      · exact ⟨hnd, fun h hm => Nat.lt_succ_of_lt (hbound h hm)⟩
      · rename_i h heq
        obtain ⟨hpid, hact, _⟩ := loadModule_ok_fields heq
        constructor
        · rw [registerHandle_pids]
          refine List.Nodup.append hnd (List.nodup_singleton _) ?_
          intro x hx1 hx2
          rw [List.mem_singleton] at hx2
          subst hx2
          rw [pids, List.mem_map] at hx1
          obtain ⟨h2, hm2, heq2⟩ := hx1
          have := hbound h2 hm2
          rw [heq2, hpid] at this
          exact lt_irrefl _ this
        · intro h2 hm2
          rw [registerHandle_handles] at hm2
          show h2.pid < s.nextPid + 1
          rcases List.mem_append.mp hm2 with hm3 | hm3
          · exact Nat.lt_succ_of_lt (hbound h2 hm3)
          · rw [List.mem_singleton] at hm3
            subst hm3
            rw [hpid]
            exact Nat.lt_succ_self _
  | invoke ty id payload =>
      refine Inv_of_pids_eq ?_ (genericInvoke_nextPid codec s ty id payload)
        ⟨hnd, hbound⟩
      show pids (genericInvoke codec s ty id payload).2.1 = pids s
      rw [pids, genericInvoke_handles]
      rfl
  | route method path body =>
      refine Inv_of_pids_eq ?_ (dispatchRoute_nextPid codec s method path body)
        ⟨hnd, hbound⟩
      show pids (dispatchRoute codec s method path body).2.1 = pids s
      rw [pids, dispatchRoute_handles]
      rfl
  | configChanged key value =>
      exact Inv_of_pids_eq rfl rfl ⟨hnd, hbound⟩
  | destroy p =>
      exact Inv_of_pids_eq (destroyHandle_pids s p) (destroyHandle_nextPid s p)
        ⟨hnd, hbound⟩
  | shutdown =>
      exact Inv_of_pids_eq (shutdownAll_pids (pids s) s)
        (shutdownAll_nextPid (pids s) s) ⟨hnd, hbound⟩

theorem destroyedIn_of_find_some {s : HostState} {p : PluginId} {h : Handle}
    (hf : findHandle s.handles p = some h) :
    destroyedIn s p = decide (h.st = LifeState.destroyed) := by
  unfold destroyedIn
  rw [hf]

theorem destroyedIn_of_find_none {s : HostState} {p : PluginId}
    (hf : findHandle s.handles p = none) : destroyedIn s p = false := by
  unfold destroyedIn
  rw [hf]

theorem destroyHandle_versionOf (s : HostState) (q p : PluginId) :
    versionOf (destroyHandle s q).1 p = versionOf s p := by
  rcases destroyHandle_handles s q with hh | hh
  · unfold versionOf; rw [hh]
  · unfold versionOf
    rw [hh]
    by_cases hpq : p = q
    · subst hpq
      rw [findHandle_markDestroyed_self]
      cases findHandle s.handles p <;> rfl
    · rw [findHandle_markDestroyed_ne hpq]

theorem shutdownAll_versionOf (ps : List PluginId) :
    ∀ (s : HostState) (p : PluginId),
      versionOf (shutdownAll s ps).1 p = versionOf s p := by
  induction ps with
  | nil => intro s p; rfl
  | cons q ps ih =>
      intro s p
      show versionOf (shutdownAll (destroyHandle s q).1 ps).1 p = _
      rw [ih, destroyHandle_versionOf]

theorem hostStep_versionOf_stable (codec : Codec) (host : osr_host_api)
    (s : HostState) (op : Op) (p : PluginId) (v : Nat)
    (h : versionOf s p = some v) :
    versionOf (hostStep codec host s op).1 p = some v := by
  cases op with
  | load m =>
      simp only [hostStep]
      split
      · exact h
      · rename_i hh heq
        show versionOf (registerHandle _ hh) p = some v
        unfold versionOf at h ⊢
        rw [registerHandle_handles]
        cases hf : findHandle s.handles p with
        | none => rw [hf] at h; exact Option.noConfusion h
        | some h0 =>
            rw [show findHandle (({s with
                nextPtr := (loadModule codec host s.nextPid s.nextPtr m).2.1
                nextPid := s.nextPid + 1 : HostState}).handles ++ [hh]) p = some h0 from
              findHandle_append_of_some hf [hh]]
            rw [hf] at h
            exact h
  | invoke ty id payload =>
      show versionOf (genericInvoke codec s ty id payload).2.1 p = some v
      unfold versionOf
      rw [genericInvoke_handles]
      exact h
  | route method path body =>
      show versionOf (dispatchRoute codec s method path body).2.1 p = some v
      unfold versionOf
      rw [dispatchRoute_handles]
      exact h
  | configChanged key value => exact h
  | destroy q =>
      show versionOf (destroyHandle s q).1 p = some v
      rw [destroyHandle_versionOf]
      exact h
  | shutdown =>
      show versionOf (shutdownAll s (pids s)).1 p = some v
      rw [shutdownAll_versionOf]
      exact h

theorem destroyedIn_congr {s2 s : HostState} (hh : s2.handles = s.handles)
    (p : PluginId) : destroyedIn s2 p = destroyedIn s p := by
  unfold destroyedIn
  rw [hh]

theorem destroyedIn_append_active {s2 s : HostState} {hh : Handle}
    (hhandles : s2.handles = s.handles ++ [hh])
    (hact : hh.st = LifeState.active) (p : PluginId) :
    destroyedIn s2 p = destroyedIn s p := by
  unfold destroyedIn
  rw [hhandles]
  cases hf : findHandle s.handles p with
  | some h0 => rw [findHandle_append_of_some hf]
  | none =>
      rw [findHandle_append_of_none hf]
      simp only [findHandle]
      by_cases hp : hh.pid = p
      · rw [if_pos hp]
        simp [hact]
      · rw [if_neg hp]

theorem destroyedIn_marked_self {s2 s : HostState} {q : PluginId}
    (hh : s2.handles = markDestroyed s.handles q)
    (hsome : ∃ h, findHandle s.handles q = some h) :
    destroyedIn s2 q = true := by
  obtain ⟨h, hf⟩ := hsome
  unfold destroyedIn
  rw [hh, findHandle_markDestroyed_self, hf]
  simp

theorem destroyedIn_marked_ne {s2 s : HostState} {q : PluginId}
    (hh : s2.handles = markDestroyed s.handles q) {p : PluginId} (hpq : p ≠ q) :
    destroyedIn s2 p = destroyedIn s p := by
  unfold destroyedIn
  rw [hh, findHandle_markDestroyed_ne hpq]

/-- The three behaviours of `destroyHandle`: unknown id (no-op), already
destroyed (no-op — `destroy` is not called again), or Active (marked
destroyed, `destroy` called exactly once, a misbehaving `destroy`
recorded). -/
theorem destroyHandle_spec (s : HostState) (p : PluginId) :
    (findHandle s.handles p = none ∧ destroyHandle s p = (s, [])) ∨
    (∃ h, findHandle s.handles p = some h ∧ h.st = LifeState.destroyed ∧
      destroyHandle s p = (s, [])) ∨
    (∃ h, findHandle s.handles p = some h ∧ h.st ≠ LifeState.destroyed ∧
      (destroyHandle s p).1.handles = markDestroyed s.handles p ∧
      (destroyHandle s p).2 = [Event.callDestroy p] ∧
      (destroyHandle s p).1.errors = s.errors ++
        (if h.api.destroy h.ctx then [] else [HostError.destroyMisbehaved p])) := by
  unfold destroyHandle
  split
  · rename_i hfq
    exact Or.inl ⟨hfq, rfl⟩
  · rename_i h hfq
    split
    · rename_i hd
      exact Or.inr (Or.inl ⟨h, hfq, hd, rfl⟩)
    · rename_i hd
      exact Or.inr (Or.inr ⟨h, hfq, hd, rfl, rfl, rfl⟩)

theorem destroyHandle_destroyedIn_mono {s : HostState} {q p : PluginId}
    (hd : destroyedIn s p = true) :
    destroyedIn (destroyHandle s q).1 p = true := by
  rcases destroyHandle_spec s q with ⟨hfq, heq⟩ | ⟨h, hfq, hds, heq⟩ |
    ⟨h, hfq, hds, hh, htr, herr⟩
  · rw [heq]; exact hd
  · rw [heq]; exact hd
  · by_cases hpq : p = q
    · subst hpq
      exact destroyedIn_marked_self hh ⟨h, hfq⟩
    · rw [destroyedIn_marked_ne hh hpq]
      exact hd

theorem destroyHandle_destroys {s : HostState} {p : PluginId}
    (hp : p ∈ pids s) : destroyedIn (destroyHandle s p).1 p = true := by
  obtain ⟨h, hf⟩ := findHandle_isSome_of_mem_pids hp
  rcases destroyHandle_spec s p with ⟨hfq, heq⟩ | ⟨h2, hfq, hds, heq⟩ |
    ⟨h2, hfq, hds, hh, htr, herr⟩
  · rw [hf] at hfq; exact Option.noConfusion hfq
  · rw [heq]
    show destroyedIn s p = true
    rw [destroyedIn_of_find_some hfq, hds]
    simp
  · exact destroyedIn_marked_self hh ⟨h2, hfq⟩

theorem destroyHandle_count (s : HostState) (q p : PluginId) :
    ((destroyHandle s q).2).count (Event.callDestroy p) =
      cond (destroyedIn (destroyHandle s q).1 p && !(destroyedIn s p)) 1 0 := by
  rcases destroyHandle_spec s q with ⟨hfq, heq⟩ | ⟨h, hfq, hds, heq⟩ |
    ⟨h, hfq, hds, hh, htr, herr⟩
  · rw [heq]
    cases hdp : destroyedIn s p <;> simp
  · rw [heq]
    cases hdp : destroyedIn s p <;> simp
  · rw [htr]
    by_cases hpq : p = q
    · subst hpq
      have h1 : destroyedIn (destroyHandle s p).1 p = true :=
        destroyedIn_marked_self hh ⟨h, hfq⟩
      have h0 : destroyedIn s p = false := by
        rw [destroyedIn_of_find_some hfq]
        simp [hds]
      rw [h1, h0]
      simp
    · have h1 : destroyedIn (destroyHandle s q).1 p = destroyedIn s p :=
        destroyedIn_marked_ne hh hpq
      rw [h1]
      have hcount : [Event.callDestroy q].count (Event.callDestroy p) = 0 := by
        simp [List.count_cons]
        intro hc
        exact absurd hc.symm hpq
      rw [hcount]
      cases destroyedIn s p <;> simp

theorem shutdownAll_destroyedIn_mono (ps : List PluginId) :
    ∀ (s : HostState) (p : PluginId), destroyedIn s p = true →
      destroyedIn (shutdownAll s ps).1 p = true := by
  induction ps with
  | nil => intro s p hd; exact hd
  | cons q ps ih =>
      intro s p hd
      show destroyedIn (shutdownAll (destroyHandle s q).1 ps).1 p = true
      exact ih _ p (destroyHandle_destroyedIn_mono hd)

theorem shutdownAll_count (ps : List PluginId) :
    ∀ (s : HostState) (p : PluginId),
      ((shutdownAll s ps).2).count (Event.callDestroy p) =
        cond (destroyedIn (shutdownAll s ps).1 p && !(destroyedIn s p)) 1 0 := by
  induction ps with
  | nil =>
      intro s p
      cases hd : destroyedIn s p <;> simp [shutdownAll, hd]
  | cons q ps ih =>
      intro s p
      show ((destroyHandle s q).2 ++
          (shutdownAll (destroyHandle s q).1 ps).2).count (Event.callDestroy p) =
        cond (destroyedIn (shutdownAll (destroyHandle s q).1 ps).1 p &&
          !(destroyedIn s p)) 1 0
      rw [List.count_append, destroyHandle_count, ih]
      have m1 := @destroyHandle_destroyedIn_mono s q p
      have m2 := shutdownAll_destroyedIn_mono ps (destroyHandle s q).1 p
      cases h0 : destroyedIn s p <;>
        cases h1 : destroyedIn (destroyHandle s q).1 p <;>
        cases h2 : destroyedIn (shutdownAll (destroyHandle s q).1 ps).1 p <;>
        simp_all

theorem shutdownAll_destroys (ps : List PluginId) :
    ∀ (s : HostState) (p : PluginId), p ∈ ps → p ∈ pids s →
      destroyedIn (shutdownAll s ps).1 p = true := by
  induction ps with
  | nil => intro s p hp; simp at hp
  | cons q ps ih =>
      intro s p hp hpids
      show destroyedIn (shutdownAll (destroyHandle s q).1 ps).1 p = true
      rcases List.mem_cons.mp hp with heq | hp2
      · subst heq
        exact shutdownAll_destroyedIn_mono ps _ p (destroyHandle_destroys hpids)
      · apply ih _ p hp2
        show p ∈ pids (destroyHandle s q).1
        rw [destroyHandle_pids]
        exact hpids

theorem findCapability_mem (c : Capability) :
    ∀ {hs : List Handle} {h : Handle}, findCapability hs c = some h →
      h ∈ hs ∧ h.st = LifeState.active ∧ advertises h c := by
  intro hs
  induction hs with
  | nil => intro h hf; simp [findCapability] at hf
  | cons h0 rest ih =>
      intro h hf
      simp only [findCapability] at hf
      by_cases hcond : h0.st = LifeState.active ∧ advertises h0 c
      · rw [if_pos hcond] at hf
        obtain rfl := Option.some.inj hf
        exact ⟨List.mem_cons_self _ _, hcond.1, hcond.2⟩
      · rw [if_neg hcond] at hf
        obtain ⟨hm, h1, h2⟩ := ih hf
        exact ⟨List.mem_cons_of_mem _ hm, h1, h2⟩

theorem loadModule_trace_events (codec : Codec) (host : osr_host_api)
    (pid : PluginId) (np : Nat) (m : PluginModule) :
    ∀ e ∈ (loadModule codec host pid np m).2.2,
      e = Event.callInit pid ∨ (∃ o q, e = Event.pluginReturned o q) ∨
        (∃ o q, e = Event.freeString o q) := by
  unfold loadModule
  split
  · intro e he; simp at he
  · split
    · intro e he; simp at he
    · split
      · intro e he; simp at he
      · split
        · intro e he
          rw [List.mem_singleton] at he
          exact Or.inl he
        · rename_i hop xa api heqa xb nv heqb xc ctx heqc
          intro e he
          rw [List.mem_cons] at he
          rcases he with rfl | he
          · exact Or.inl rfl
          · cases hg : api.get_manifest ctx with
            | none => rw [hg] at he; simp [acquireString] at he
            | some str =>
                rw [hg] at he
                simp only [acquireString] at he
                rw [List.mem_cons, List.mem_singleton] at he
                rcases he with rfl | rfl
                · exact Or.inr (Or.inl ⟨pid, np, rfl⟩)
                · exact Or.inr (Or.inr ⟨pid, np, rfl⟩)

theorem genericInvoke_trace_events (codec : Codec) (s : HostState)
    (ty id payload : String) :
    ∀ e ∈ (genericInvoke codec s ty id payload).2.2,
      (∃ h, h ∈ s.handles ∧ h.st = LifeState.active ∧ advertises h ⟨ty, id⟩ ∧
        e = Event.callInvoke h.pid) ∨
      (∃ o q, e = Event.pluginReturned o q) ∨
        (∃ o q, e = Event.freeString o q) := by
  unfold genericInvoke
  cases hfind : findCapability s.handles ⟨ty, id⟩ with
  | none => intro e he; simp at he
  | some h =>
      intro e he
      obtain ⟨hm, hact, hadv⟩ := findCapability_mem ⟨ty, id⟩ hfind
      rw [List.mem_cons] at he
      rcases he with rfl | he
      · exact Or.inl ⟨h, hm, hact, hadv, rfl⟩
      · cases hg : h.api.invoke h.ctx ty id payload with
        | none => rw [hg] at he; simp [acquireString] at he
        | some str =>
            rw [hg] at he
            simp only [acquireString] at he
            rw [List.mem_cons, List.mem_singleton] at he
            rcases he with rfl | rfl
            · exact Or.inr (Or.inl ⟨h.pid, s.nextPtr, rfl⟩)
            · exact Or.inr (Or.inr ⟨h.pid, s.nextPtr, rfl⟩)

theorem dispatchRoute_trace_events (codec : Codec) (s : HostState)
    (method path body : String) :
    ∀ e ∈ (dispatchRoute codec s method path body).2.2,
      (∃ h, h ∈ s.handles ∧ h.st = LifeState.active ∧
        (routeHook h).isSome = true ∧ e = Event.callRoute h.pid) ∨
      (∃ o q, e = Event.pluginReturned o q) ∨
        (∃ o q, e = Event.freeString o q) := by
  unfold dispatchRoute
  cases hfind : findRoute s.handles method path with
  | none => intro e he; simp at he
  | some pr =>
      obtain ⟨h, r⟩ := pr
      intro e he
      obtain ⟨hm, hact, _, _, _⟩ := findRoute_sound method path s.handles h r hfind
      cases hhook : routeHook h with
      | none => simp only [hhook] at he; simp at he
      | some f =>
          simp only [hhook] at he
          rw [List.mem_cons] at he
          rcases he with rfl | he
          · exact Or.inl ⟨h, hm, hact, by rw [hhook]; rfl, rfl⟩
          · cases hg : f h.ctx body with
            | none => rw [hg] at he; simp [acquireString] at he
            | some str =>
                rw [hg] at he
                simp only [acquireString] at he
                rw [List.mem_cons, List.mem_singleton] at he
                rcases he with rfl | rfl
                · exact Or.inr (Or.inl ⟨h.pid, s.nextPtr, rfl⟩)
                · exact Or.inr (Or.inr ⟨h.pid, s.nextPtr, rfl⟩)

theorem routeHook_isSome_version {h : Handle}
    (hs : (routeHook h).isSome = true) : h.abiVersion ≠ 1 := by
  intro h1
  unfold routeHook at hs
  rw [if_pos h1] at hs
  simp at hs

theorem configHook_isSome_version {h : Handle}
    (hs : (configHook h).isSome = true) : h.abiVersion ≠ 1 := by
  intro h1
  unfold configHook at hs
  rw [if_pos h1] at hs
  simp at hs

theorem hostStep_load_trace (codec : Codec) (host : osr_host_api)
    (s : HostState) (m : PluginModule) :
    (hostStep codec host s (.load m)).2 =
      (loadModule codec host s.nextPid s.nextPtr m).2.2 := by
  simp only [hostStep]
  split <;> rfl

theorem hostStep_load_destroyedIn (codec : Codec) (host : osr_host_api)
    (s : HostState) (m : PluginModule) (p : PluginId) :
    destroyedIn (hostStep codec host s (.load m)).1 p = destroyedIn s p := by
  simp only [hostStep]
  split
  · exact destroyedIn_congr rfl p
  · rename_i h heq
    obtain ⟨_, hact, _⟩ := loadModule_ok_fields heq
    exact destroyedIn_append_active (registerHandle_handles _ h) hact p

theorem hostStep_destroyedIn_mono (codec : Codec) (host : osr_host_api)
    (s : HostState) (op : Op) (p : PluginId)
    (hd : destroyedIn s p = true) :
    destroyedIn (hostStep codec host s op).1 p = true := by
  cases op with
  | load m => rw [hostStep_load_destroyedIn]; exact hd
  | invoke ty id payload =>
      show destroyedIn (genericInvoke codec s ty id payload).2.1 p = true
      rw [destroyedIn_congr (genericInvoke_handles codec s ty id payload) p]
      exact hd
  | route method path body =>
      show destroyedIn (dispatchRoute codec s method path body).2.1 p = true
      rw [destroyedIn_congr (dispatchRoute_handles codec s method path body) p]
      exact hd
  | configChanged key value => exact hd
  | destroy q => exact destroyHandle_destroyedIn_mono hd
  | shutdown => exact shutdownAll_destroyedIn_mono (pids s) s p hd

theorem hostStep_destroy_count (codec : Codec) (host : osr_host_api)
    (s : HostState) (op : Op) (p : PluginId) :
    ((hostStep codec host s op).2).count (Event.callDestroy p) =
      cond (destroyedIn (hostStep codec host s op).1 p &&
        !(destroyedIn s p)) 1 0 := by
  cases op with
  | load m =>
      rw [hostStep_load_trace, hostStep_load_destroyedIn]
      have hz : ((loadModule codec host s.nextPid s.nextPtr m).2.2).count
          (Event.callDestroy p) = 0 := by
        rw [List.count_eq_zero]
        intro hmem
        rcases loadModule_trace_events codec host s.nextPid s.nextPtr m _ hmem
          with heq | ⟨o, q, heq⟩ | ⟨o, q, heq⟩ <;> exact Event.noConfusion heq
      rw [hz]
      cases destroyedIn s p <;> simp
  | invoke ty id payload =>
      show ((genericInvoke codec s ty id payload).2.2).count (Event.callDestroy p) =
        cond (destroyedIn (genericInvoke codec s ty id payload).2.1 p &&
          !(destroyedIn s p)) 1 0
      rw [destroyedIn_congr (genericInvoke_handles codec s ty id payload) p]
      have hz : ((genericInvoke codec s ty id payload).2.2).count
          (Event.callDestroy p) = 0 := by
        rw [List.count_eq_zero]
        intro hmem
        rcases genericInvoke_trace_events codec s ty id payload _ hmem
          with ⟨h, _, _, _, heq⟩ | ⟨o, q, heq⟩ | ⟨o, q, heq⟩ <;>
          exact Event.noConfusion heq
      rw [hz]
      cases destroyedIn s p <;> simp
  | route method path body =>
      show ((dispatchRoute codec s method path body).2.2).count (Event.callDestroy p) =
        cond (destroyedIn (dispatchRoute codec s method path body).2.1 p &&
          !(destroyedIn s p)) 1 0
      rw [destroyedIn_congr (dispatchRoute_handles codec s method path body) p]
      have hz : ((dispatchRoute codec s method path body).2.2).count
          (Event.callDestroy p) = 0 := by
        rw [List.count_eq_zero]
        intro hmem
        rcases dispatchRoute_trace_events codec s method path body _ hmem
          with ⟨h, _, _, _, heq⟩ | ⟨o, q, heq⟩ | ⟨o, q, heq⟩ <;>
          exact Event.noConfusion heq
      rw [hz]
      cases destroyedIn s p <;> simp
  | configChanged key value =>
      have hz : ((configBroadcast s key value).2).count
          (Event.callDestroy p) = 0 := by
        rw [List.count_eq_zero]
        intro hmem
        obtain ⟨h, _, _, _, heq⟩ := configBroadcast_trace_events s key value _ hmem
        exact Event.noConfusion heq
      show ((configBroadcast s key value).2).count (Event.callDestroy p) =
        cond (destroyedIn (configBroadcast s key value).1 p && !(destroyedIn s p)) 1 0
      rw [hz, destroyedIn_congr (configBroadcast_handles s key value) p]
      cases destroyedIn s p <;> simp
  | destroy q => exact destroyHandle_count s q p
  | shutdown => exact shutdownAll_count (pids s) s p

theorem hostStep_no_calls_destroyed (codec : Codec) (host : osr_host_api)
    (s : HostState) (op : Op) (p : PluginId) (hInv : Inv s)
    (hd : destroyedIn s p = true) :
    Event.callInvoke p ∉ (hostStep codec host s op).2 ∧
    Event.callRoute p ∉ (hostStep codec host s op).2 ∧
    Event.callConfigChanged p ∉ (hostStep codec host s op).2 := by
  have hkey : ∀ h : Handle, h ∈ s.handles → h.pid = p →
      h.st ≠ LifeState.active := by
    intro h hm hpid hact
    have hfh := findHandle_of_mem_nodup hInv.1 hm
    rw [hpid] at hfh
    rw [destroyedIn_of_find_some hfh, hact] at hd
    simp at hd
  cases op with
  | load m =>
      refine ⟨?_, ?_, ?_⟩ <;> intro hmem <;> rw [hostStep_load_trace] at hmem <;>
        rcases loadModule_trace_events codec host s.nextPid s.nextPtr m _ hmem
          with heq | ⟨o, q, heq⟩ | ⟨o, q, heq⟩ <;> exact Event.noConfusion heq
  | invoke ty id payload =>
      refine ⟨?_, ?_, ?_⟩ <;> intro hmem <;>
        rcases genericInvoke_trace_events codec s ty id payload _ hmem
          with ⟨h, hm, hact, _, heq⟩ | ⟨o, q, heq⟩ | ⟨o, q, heq⟩
      · exact hkey h hm (Event.callInvoke.inj heq).symm hact
      · exact Event.noConfusion heq
      · exact Event.noConfusion heq
      · exact Event.noConfusion heq
      · exact Event.noConfusion heq
      · exact Event.noConfusion heq
      · exact Event.noConfusion heq
      · exact Event.noConfusion heq
      · exact Event.noConfusion heq
  | route method path body =>
      refine ⟨?_, ?_, ?_⟩ <;> intro hmem <;>
        rcases dispatchRoute_trace_events codec s method path body _ hmem
          with ⟨h, hm, hact, _, heq⟩ | ⟨o, q, heq⟩ | ⟨o, q, heq⟩
      · exact Event.noConfusion heq
      · exact Event.noConfusion heq
      · exact Event.noConfusion heq
      · exact hkey h hm (Event.callRoute.inj heq).symm hact
      · exact Event.noConfusion heq
      · exact Event.noConfusion heq
      · exact Event.noConfusion heq
      · exact Event.noConfusion heq
      · exact Event.noConfusion heq
  | configChanged key value =>
      refine ⟨?_, ?_, ?_⟩ <;> intro hmem <;>
        obtain ⟨h, hm, hact, _, heq⟩ :=
          configBroadcast_trace_events s key value _ hmem
      · exact Event.noConfusion heq
      · exact Event.noConfusion heq
      · exact hkey h hm (Event.callConfigChanged.inj heq).symm hact
  | destroy q =>
      refine ⟨?_, ?_, ?_⟩ <;> intro hmem <;>
        rw [show (hostStep codec host s (Op.destroy q)).2 =
          (destroyHandle s q).2 from rfl] at hmem <;>
        rcases destroyHandle_trace s q with htr | htr <;> rw [htr] at hmem <;>
        first
        | exact absurd hmem (List.not_mem_nil _)
        | (rw [List.mem_singleton] at hmem; exact Event.noConfusion hmem)
  | shutdown =>
      refine ⟨?_, ?_, ?_⟩ <;> intro hmem <;>
        rw [show (hostStep codec host s Op.shutdown).2 =
          (shutdownAll s (pids s)).2 from rfl] at hmem <;>
        obtain ⟨q, _, heq⟩ := shutdownAll_trace_events (pids s) s _ hmem <;>
        exact Event.noConfusion heq

theorem hostStep_v2_call_origin (codec : Codec) (host : osr_host_api)
    (s : HostState) (op : Op) (p : PluginId)
    (he : Event.callRoute p ∈ (hostStep codec host s op).2 ∨
      Event.callConfigChanged p ∈ (hostStep codec host s op).2) :
    ∃ h, h ∈ s.handles ∧ h.pid = p ∧ h.abiVersion ≠ 1 := by
  cases op with
  | load m =>
      exfalso
      rcases he with hmem | hmem <;> rw [hostStep_load_trace] at hmem <;>
        rcases loadModule_trace_events codec host s.nextPid s.nextPtr m _ hmem
          with heq | ⟨o, q, heq⟩ | ⟨o, q, heq⟩ <;> exact Event.noConfusion heq
  | invoke ty id payload =>
      exfalso
      rcases he with hmem | hmem <;>
        rcases genericInvoke_trace_events codec s ty id payload _ hmem
          with ⟨h, _, _, _, heq⟩ | ⟨o, q, heq⟩ | ⟨o, q, heq⟩ <;>
        exact Event.noConfusion heq
  | route method path body =>
      rcases he with hmem | hmem <;>
        rcases dispatchRoute_trace_events codec s method path body _ hmem
          with ⟨h, hm, hact, hhook, heq⟩ | ⟨o, q, heq⟩ | ⟨o, q, heq⟩
      · exact ⟨h, hm, (Event.callRoute.inj heq).symm, routeHook_isSome_version hhook⟩
      · exact Event.noConfusion heq
      · exact Event.noConfusion heq
      · exact Event.noConfusion heq
      · exact Event.noConfusion heq
      · exact Event.noConfusion heq
  | configChanged key value =>
      rcases he with hmem | hmem <;>
        obtain ⟨h, hm, hact, hhook, heq⟩ :=
          configBroadcast_trace_events s key value _ hmem
      · exact Event.noConfusion heq
      · exact ⟨h, hm, (Event.callConfigChanged.inj heq).symm,
          configHook_isSome_version hhook⟩
  | destroy q =>
      exfalso
      rcases he with hmem | hmem <;>
        rw [show (hostStep codec host s (Op.destroy q)).2 =
          (destroyHandle s q).2 from rfl] at hmem <;>
        rcases destroyHandle_trace s q with htr | htr <;> rw [htr] at hmem <;>
        first
        | exact absurd hmem (List.not_mem_nil _)
        | (rw [List.mem_singleton] at hmem; exact Event.noConfusion hmem)
  | shutdown =>
      exfalso
      rcases he with hmem | hmem <;>
        rw [show (hostStep codec host s Op.shutdown).2 =
          (shutdownAll s (pids s)).2 from rfl] at hmem <;>
        obtain ⟨q, _, heq⟩ := shutdownAll_trace_events (pids s) s _ hmem <;>
        exact Event.noConfusion heq

theorem hostStep_pids_mono (codec : Codec) (host : osr_host_api)
    (s : HostState) (op : Op) (p : PluginId) (hp : p ∈ pids s) :
    p ∈ pids (hostStep codec host s op).1 := by
  cases op with
  | load m =>
      simp only [hostStep]
      split
      · exact hp
      · rw [registerHandle_pids]
        exact List.mem_append_left _ hp
  | invoke ty id payload =>
      show p ∈ pids (genericInvoke codec s ty id payload).2.1
      rw [pids, genericInvoke_handles]
      exact hp
  | route method path body =>
      show p ∈ pids (dispatchRoute codec s method path body).2.1
      rw [pids, dispatchRoute_handles]
      exact hp
  | configChanged key value => exact hp
  | destroy q =>
      show p ∈ pids (destroyHandle s q).1
      rw [destroyHandle_pids]
      exact hp
  | shutdown =>
      show p ∈ pids (shutdownAll s (pids s)).1
      rw [shutdownAll_pids]
      exact hp

theorem hostStep_call_events_loaded (codec : Codec) (host : osr_host_api)
    (s : HostState) (op : Op) (p : PluginId)
    (he : Event.callInvoke p ∈ (hostStep codec host s op).2 ∨
      Event.callRoute p ∈ (hostStep codec host s op).2 ∨
      Event.callConfigChanged p ∈ (hostStep codec host s op).2 ∨
      Event.callDestroy p ∈ (hostStep codec host s op).2) :
    p ∈ pids (hostStep codec host s op).1 := by
  have hstep : p ∈ pids s → p ∈ pids (hostStep codec host s op).1 :=
    hostStep_pids_mono codec host s op p
  cases op with
  | load m =>
      exfalso
      rcases he with hmem | hmem | hmem | hmem <;>
        rw [hostStep_load_trace] at hmem <;>
        rcases loadModule_trace_events codec host s.nextPid s.nextPtr m _ hmem
          with heq | ⟨o, q, heq⟩ | ⟨o, q, heq⟩ <;> exact Event.noConfusion heq
  | invoke ty id payload =>
      apply hstep
      rcases he with hmem | hmem | hmem | hmem <;>
        rcases genericInvoke_trace_events codec s ty id payload _ hmem
          with ⟨h, hm, _, _, heq⟩ | ⟨o, q, heq⟩ | ⟨o, q, heq⟩ <;>
        first
        | exact Event.noConfusion heq
        | (rw [show p = h.pid from Event.callInvoke.inj heq]
           exact List.mem_map_of_mem _ hm)
  | route method path body =>
      apply hstep
      rcases he with hmem | hmem | hmem | hmem <;>
        rcases dispatchRoute_trace_events codec s method path body _ hmem
          with ⟨h, hm, _, _, heq⟩ | ⟨o, q, heq⟩ | ⟨o, q, heq⟩ <;>
        first
        | exact Event.noConfusion heq
        | (rw [show p = h.pid from Event.callRoute.inj heq]
           exact List.mem_map_of_mem _ hm)
  | configChanged key value =>
      apply hstep
      rcases he with hmem | hmem | hmem | hmem <;>
        obtain ⟨h, hm, _, _, heq⟩ :=
          configBroadcast_trace_events s key value _ hmem <;>
        first
        | exact Event.noConfusion heq
        | (rw [show p = h.pid from Event.callConfigChanged.inj heq]
           exact List.mem_map_of_mem _ hm)
  | destroy q =>
      apply hstep
      rcases destroyHandle_spec s q with ⟨hfq, heq2⟩ | ⟨h, hfq, hds, heq2⟩ |
        ⟨h, hfq, hds, hh, htr, herr⟩
      · rw [show (hostStep codec host s (Op.destroy q)).2 =
          (destroyHandle s q).2 from rfl, heq2] at he
        simp at he
      · rw [show (hostStep codec host s (Op.destroy q)).2 =
          (destroyHandle s q).2 from rfl, heq2] at he
        simp at he
      · rw [show (hostStep codec host s (Op.destroy q)).2 =
          (destroyHandle s q).2 from rfl, htr] at he
        obtain ⟨hm2, hpid2⟩ := findHandle_mem hfq
        rcases he with hmem | hmem | hmem | hmem <;>
          rw [List.mem_singleton] at hmem <;>
          first
          | exact Event.noConfusion hmem
          | (obtain rfl := Event.callDestroy.inj hmem
             rw [← hpid2]
             exact List.mem_map_of_mem _ hm2)
  | shutdown =>
      apply hstep
      rcases he with hmem | hmem | hmem | hmem <;>
        rw [show (hostStep codec host s Op.shutdown).2 =
          (shutdownAll s (pids s)).2 from rfl] at hmem <;>
        obtain ⟨q, hq, heq⟩ := shutdownAll_trace_events (pids s) s _ hmem <;>
        first
        | exact Event.noConfusion heq
        | (obtain rfl := (Event.callDestroy.inj heq); exact hq)

theorem runHost_Inv (codec : Codec) (host : osr_host_api) :
    ∀ (ops : List Op) (s : HostState), Inv s →
      Inv (runHost codec host s ops).1 := by
  intro ops
  induction ops with
  | nil => intro s h; exact h
  | cons op ops ih =>
      intro s h
      show Inv (runHost codec host (hostStep codec host s op).1 ops).1
      exact ih _ (hostStep_Inv codec host s op h)

theorem runHost_versionOf_stable (codec : Codec) (host : osr_host_api) :
    ∀ (ops : List Op) (s : HostState) (p : PluginId) (v : Nat),
      versionOf s p = some v →
      versionOf (runHost codec host s ops).1 p = some v := by
  intro ops
  induction ops with
  | nil => intro s p v h; exact h
  | cons op ops ih =>
      intro s p v h
      show versionOf (runHost codec host (hostStep codec host s op).1 ops).1 p =
        some v
      exact ih _ p v (hostStep_versionOf_stable codec host s op p v h)

theorem runHost_destroyedIn_mono (codec : Codec) (host : osr_host_api) :
    ∀ (ops : List Op) (s : HostState) (p : PluginId),
      destroyedIn s p = true →
      destroyedIn (runHost codec host s ops).1 p = true := by
  intro ops
  induction ops with
  | nil => intro s p h; exact h
  | cons op ops ih =>
      intro s p h
      show destroyedIn (runHost codec host (hostStep codec host s op).1 ops).1 p =
        true
      exact ih _ p (hostStep_destroyedIn_mono codec host s op p h)

theorem runHost_pids_mono (codec : Codec) (host : osr_host_api) :
    ∀ (ops : List Op) (s : HostState) (p : PluginId), p ∈ pids s →
      p ∈ pids (runHost codec host s ops).1 := by
  intro ops
  induction ops with
  | nil => intro s p h; exact h
  | cons op ops ih =>
      intro s p h
      show p ∈ pids (runHost codec host (hostStep codec host s op).1 ops).1
      exact ih _ p (hostStep_pids_mono codec host s op p h)

theorem runHost_destroy_count (codec : Codec) (host : osr_host_api) :
    ∀ (ops : List Op) (s : HostState) (p : PluginId),
      ((runHost codec host s ops).2).count (Event.callDestroy p) =
        cond (destroyedIn (runHost codec host s ops).1 p &&
          !(destroyedIn s p)) 1 0 := by
  intro ops
  induction ops with
  | nil =>
      intro s p
      cases hd : destroyedIn s p <;> simp [runHost, hd]
  | cons op ops ih =>
      intro s p
      show ((hostStep codec host s op).2 ++
          (runHost codec host (hostStep codec host s op).1 ops).2).count
          (Event.callDestroy p) =
        cond (destroyedIn
          (runHost codec host (hostStep codec host s op).1 ops).1 p &&
          !(destroyedIn s p)) 1 0
      rw [List.count_append, hostStep_destroy_count, ih]
      have m1 := hostStep_destroyedIn_mono codec host s op p
      have m2 := runHost_destroyedIn_mono codec host ops
        (hostStep codec host s op).1 p
      cases h0 : destroyedIn s p <;>
        cases h1 : destroyedIn (hostStep codec host s op).1 p <;>
        cases h2 : destroyedIn
          (runHost codec host (hostStep codec host s op).1 ops).1 p <;>
        simp_all

theorem runHost_no_calls_destroyed (codec : Codec) (host : osr_host_api) :
    ∀ (ops : List Op) (s : HostState) (p : PluginId), Inv s →
      destroyedIn s p = true →
      Event.callInvoke p ∉ (runHost codec host s ops).2 ∧
      Event.callRoute p ∉ (runHost codec host s ops).2 ∧
      Event.callConfigChanged p ∉ (runHost codec host s ops).2 := by
  intro ops
  induction ops with
  | nil =>
      intro s p _ _
      refine ⟨?_, ?_, ?_⟩ <;> intro hm <;> simp [runHost] at hm
  | cons op ops ih =>
      intro s p hInv hd
      have hstep := hostStep_no_calls_destroyed codec host s op p hInv hd
      have hrest := ih (hostStep codec host s op).1 p
        (hostStep_Inv codec host s op hInv)
        (hostStep_destroyedIn_mono codec host s op p hd)
      refine ⟨?_, ?_, ?_⟩ <;> intro hm <;>
        rw [show (runHost codec host s (op :: ops)).2 =
          (hostStep codec host s op).2 ++
            (runHost codec host (hostStep codec host s op).1 ops).2 from rfl,
          List.mem_append] at hm
      · rcases hm with hm | hm
        · exact hstep.1 hm
        · exact hrest.1 hm
      · rcases hm with hm | hm
        · exact hstep.2.1 hm
        · exact hrest.2.1 hm
      · rcases hm with hm | hm
        · exact hstep.2.2 hm
        · exact hrest.2.2 hm

theorem runHost_v2_call_origin (codec : Codec) (host : osr_host_api) :
    ∀ (ops : List Op) (s : HostState) (p : PluginId), Inv s →
      (Event.callRoute p ∈ (runHost codec host s ops).2 ∨
        Event.callConfigChanged p ∈ (runHost codec host s ops).2) →
      ∃ v, versionOf (runHost codec host s ops).1 p = some v ∧ v ≠ 1 := by
  intro ops
  induction ops with
  | nil =>
      intro s p _ he
      exfalso
      rcases he with he | he <;> simp [runHost] at he
  | cons op ops ih =>
      intro s p hInv he
      have hsplit : (Event.callRoute p ∈ (hostStep codec host s op).2 ∨
          Event.callConfigChanged p ∈ (hostStep codec host s op).2) ∨
          (Event.callRoute p ∈
              (runHost codec host (hostStep codec host s op).1 ops).2 ∨
            Event.callConfigChanged p ∈
              (runHost codec host (hostStep codec host s op).1 ops).2) := by
        rcases he with he | he <;>
          rw [show (runHost codec host s (op :: ops)).2 =
            (hostStep codec host s op).2 ++
              (runHost codec host (hostStep codec host s op).1 ops).2 from rfl,
            List.mem_append] at he
        · rcases he with he | he
          · exact Or.inl (Or.inl he)
          · exact Or.inr (Or.inl he)
        · rcases he with he | he
          · exact Or.inl (Or.inr he)
          · exact Or.inr (Or.inr he)
      rcases hsplit with he2 | he2
      · obtain ⟨h, hm, hpid, hver⟩ :=
          hostStep_v2_call_origin codec host s op p he2
        have hfh := findHandle_of_mem_nodup hInv.1 hm
        rw [hpid] at hfh
        have hv : versionOf s p = some h.abiVersion := by
          unfold versionOf
          rw [hfh]
          rfl
        have hv2 := hostStep_versionOf_stable codec host s op p h.abiVersion hv
        have hv3 := runHost_versionOf_stable codec host ops
          (hostStep codec host s op).1 p h.abiVersion hv2
        exact ⟨h.abiVersion, hv3, hver⟩
      · exact ih (hostStep codec host s op).1 p
          (hostStep_Inv codec host s op hInv) he2

theorem runHost_call_events_loaded (codec : Codec) (host : osr_host_api) :
    ∀ (ops : List Op) (s : HostState) (p : PluginId),
      (Event.callInvoke p ∈ (runHost codec host s ops).2 ∨
        Event.callRoute p ∈ (runHost codec host s ops).2 ∨
        Event.callConfigChanged p ∈ (runHost codec host s ops).2 ∨
        Event.callDestroy p ∈ (runHost codec host s ops).2) →
      p ∈ pids (runHost codec host s ops).1 := by
  intro ops
  induction ops with
  | nil =>
      intro s p he
      exfalso
      rcases he with he | he | he | he <;> simp [runHost] at he
  | cons op ops ih =>
      intro s p he
      have hsplit : (Event.callInvoke p ∈ (hostStep codec host s op).2 ∨
          Event.callRoute p ∈ (hostStep codec host s op).2 ∨
          Event.callConfigChanged p ∈ (hostStep codec host s op).2 ∨
          Event.callDestroy p ∈ (hostStep codec host s op).2) ∨
          (Event.callInvoke p ∈
              (runHost codec host (hostStep codec host s op).1 ops).2 ∨
            Event.callRoute p ∈
              (runHost codec host (hostStep codec host s op).1 ops).2 ∨
            Event.callConfigChanged p ∈
              (runHost codec host (hostStep codec host s op).1 ops).2 ∨
            Event.callDestroy p ∈
              (runHost codec host (hostStep codec host s op).1 ops).2) := by
        rcases he with he | he | he | he <;>
          rw [show (runHost codec host s (op :: ops)).2 =
            (hostStep codec host s op).2 ++
              (runHost codec host (hostStep codec host s op).1 ops).2 from rfl,
            List.mem_append] at he
        · rcases he with he | he
          · exact Or.inl (Or.inl he)
          · exact Or.inr (Or.inl he)
        · rcases he with he | he
          · exact Or.inl (Or.inr (Or.inl he))
          · exact Or.inr (Or.inr (Or.inl he))
        · rcases he with he | he
          · exact Or.inl (Or.inr (Or.inr (Or.inl he)))
          · exact Or.inr (Or.inr (Or.inr (Or.inl he)))
        · rcases he with he | he
          · exact Or.inl (Or.inr (Or.inr (Or.inr he)))
          · exact Or.inr (Or.inr (Or.inr (Or.inr he)))
      show p ∈ pids (runHost codec host (hostStep codec host s op).1 ops).1
      rcases hsplit with he2 | he2
      · exact runHost_pids_mono codec host ops _ p
          (hostStep_call_events_loaded codec host s op p he2)
      · exact ih _ p he2

theorem runHost_append (codec : Codec) (host : osr_host_api) :
    ∀ (ops1 ops2 : List Op) (s : HostState),
      runHost codec host s (ops1 ++ ops2) =
        ((runHost codec host (runHost codec host s ops1).1 ops2).1,
          (runHost codec host s ops1).2 ++
            (runHost codec host (runHost codec host s ops1).1 ops2).2) := by
  intro ops1
  induction ops1 with
  | nil => intro ops2 s; simp [runHost]
  | cons op ops ih =>
      intro ops2 s
      have h1 : runHost codec host s ((op :: ops) ++ ops2) =
          ((runHost codec host (hostStep codec host s op).1 (ops ++ ops2)).1,
            (hostStep codec host s op).2 ++
              (runHost codec host (hostStep codec host s op).1 (ops ++ ops2)).2) :=
        rfl
      rw [h1, ih ops2 (hostStep codec host s op).1]
      have h2 : runHost codec host s (op :: ops) =
          ((runHost codec host (hostStep codec host s op).1 ops).1,
            (hostStep codec host s op).2 ++
              (runHost codec host (hostStep codec host s op).1 ops).2) := rfl
      rw [h2]
      simp [List.append_assoc]

/-- C5: for every plugin whose negotiated ABI version is 1, the host never
invokes `handle_route` or `on_config_changed` on it in any reachable state
— over every operation sequence from the initial state, no `callRoute` or
`callConfigChanged` event targets a Handle whose negotiated version is
1. -/
theorem v1_plugins_never_get_v2_calls (codec : Codec) (host : osr_host_api)
    (ops : List Op) (p : PluginId)
    (hv : versionOf (runHost codec host initState ops).1 p = some 1) :
    Event.callRoute p ∉ (runHost codec host initState ops).2 ∧
    Event.callConfigChanged p ∉ (runHost codec host initState ops).2 := by
  constructor <;> intro hm
  · obtain ⟨v, hv2, hne⟩ := runHost_v2_call_origin codec host ops initState p
      Inv_initState (Or.inl hm)
    rw [hv] at hv2
    exact hne (Option.some.inj hv2).symm
  · obtain ⟨v, hv2, hne⟩ := runHost_v2_call_origin codec host ops initState p
      Inv_initState (Or.inr hm)
    rw [hv] at hv2
    exact hne (Option.some.inj hv2).symm

/-- The operation sequence of the C5 witness: load the v1 module, then a
config change and a request for a route its manifest declares. -/
def opsV1W : List Op :=
  [Op.load modV1, Op.configChanged "k" "v2", Op.route "GET" "/widgets" "{}"]

/-- Witness for C5: the loaded v1 plugin (which even declares a route and
carries junk v2 pointers) receives neither a route call nor a
config-change call. -/
theorem v1_plugins_never_get_v2_calls_witness :
    Event.callRoute 0 ∉ (runHost codecW hostW initState opsV1W).2 ∧
    Event.callConfigChanged 0 ∉ (runHost codecW hostW initState opsV1W).2 :=
  v1_plugins_never_get_v2_calls codecW hostW opsV1W 0 rfl

/-- C7: `destroy` runs exactly once per Handle — a second destruction
attempt no-ops without calling `destroy` again; over any run the
`callDestroy` count per Handle is at most one and, after a shutdown,
exactly one for every loaded Handle even if a `destroy` call misbehaves;
no call into a plugin (`invoke`, `handle_route`, `on_config_changed`)
happens after its destruction; and no call or destroy event targets a
plugin id that was never loaded (calls happen only inside the Active
window between `init` and `destroy`). -/
theorem destroy_exactly_once_lifecycle (codec : Codec) (host : osr_host_api) :
    (∀ (s : HostState) (p : PluginId), destroyedIn s p = true →
      hostStep codec host s (.destroy p) = (s, [])) ∧
    (∀ (ops : List Op) (p : PluginId),
      ((runHost codec host initState ops).2).count (Event.callDestroy p) ≤ 1) ∧
    (∀ (ops : List Op) (p : PluginId),
      p ∈ pids (runHost codec host initState ops).1 →
      ((runHost codec host initState (ops ++ [Op.shutdown])).2).count
        (Event.callDestroy p) = 1) ∧
    (∀ (ops ops2 : List Op) (p : PluginId),
      destroyedIn (runHost codec host initState ops).1 p = true →
      Event.callInvoke p ∉
          (runHost codec host (runHost codec host initState ops).1 ops2).2 ∧
        Event.callRoute p ∉
          (runHost codec host (runHost codec host initState ops).1 ops2).2 ∧
        Event.callConfigChanged p ∉
          (runHost codec host (runHost codec host initState ops).1 ops2).2) ∧
    (∀ (ops : List Op) (p : PluginId),
      p ∉ pids (runHost codec host initState ops).1 →
      Event.callInvoke p ∉ (runHost codec host initState ops).2 ∧
        Event.callRoute p ∉ (runHost codec host initState ops).2 ∧
        Event.callConfigChanged p ∉ (runHost codec host initState ops).2 ∧
        Event.callDestroy p ∉ (runHost codec host initState ops).2) := by
  refine ⟨?_, ?_, ?_, ?_, ?_⟩
  · intro s p hd
    have hfind : ∃ h, findHandle s.handles p = some h ∧
        h.st = LifeState.destroyed := by
      unfold destroyedIn at hd
      cases hf : findHandle s.handles p with
      | none => rw [hf] at hd; simp at hd
      | some h =>
          rw [hf] at hd
          simp at hd
          exact ⟨h, rfl, hd⟩
    obtain ⟨h, hf, hds⟩ := hfind
    rcases destroyHandle_spec s p with ⟨hfq, heq⟩ | ⟨h2, hfq, hds2, heq⟩ |
      ⟨h2, hfq, hds2, _, _, _⟩
    · rw [hf] at hfq; exact Option.noConfusion hfq
    · exact heq
    · rw [hf] at hfq
      obtain rfl := Option.some.inj hfq
      exact absurd hds hds2
  · intro ops p
    rw [runHost_destroy_count codec host ops initState p]
    have h0 : destroyedIn initState p = false := rfl
    rw [h0]
    cases destroyedIn (runHost codec host initState ops).1 p <;> simp
  · intro ops p hp
    rw [runHost_append codec host ops [Op.shutdown] initState]
    show ((runHost codec host initState ops).2 ++
      (runHost codec host (runHost codec host initState ops).1 [Op.shutdown]).2).count
        (Event.callDestroy p) = 1
    rw [List.count_append,
      runHost_destroy_count codec host ops initState p,
      runHost_destroy_count codec host [Op.shutdown]
        (runHost codec host initState ops).1 p]
    have h0 : destroyedIn initState p = false := rfl
    have hd2 : destroyedIn (runHost codec host
        (runHost codec host initState ops).1 [Op.shutdown]).1 p = true := by
      show destroyedIn (shutdownAll (runHost codec host initState ops).1
        (pids (runHost codec host initState ops).1)).1 p = true
      exact shutdownAll_destroys _ _ p hp hp
    rw [h0, hd2]
    cases destroyedIn (runHost codec host initState ops).1 p <;> simp
  · intro ops ops2 p hd
    exact runHost_no_calls_destroyed codec host ops2
      (runHost codec host initState ops).1 p
      (runHost_Inv codec host ops initState Inv_initState) hd
  · intro ops p hp
    refine ⟨?_, ?_, ?_, ?_⟩ <;> intro hm
    · exact hp (runHost_call_events_loaded codec host ops initState p
        (Or.inl hm))
    · exact hp (runHost_call_events_loaded codec host ops initState p
        (Or.inr (Or.inl hm)))
    · exact hp (runHost_call_events_loaded codec host ops initState p
        (Or.inr (Or.inr (Or.inl hm))))
    · exact hp (runHost_call_events_loaded codec host ops initState p
        (Or.inr (Or.inr (Or.inr hm))))

/-- Witness for C7: after loading `modA`, a shutdown destroys its Handle
exactly once. -/
theorem destroy_exactly_once_lifecycle_witness :
    ((runHost codecW hostW initState ([Op.load modA] ++ [Op.shutdown])).2).count
      (Event.callDestroy 0) = 1 := by
  apply (destroy_exactly_once_lifecycle codecW hostW).2.2.1 [Op.load modA] 0
  have hp : pids (runHost codecW hostW initState [Op.load modA]).1 = [0] := rfl
  rw [hp]
  simp

theorem config_get_eq_none (key : String) :
    ∀ store : ConfigStore, (∀ v, (key, v) ∉ store) →
      config_get store key = none
  | [], _ => rfl
  | kv :: rest, hno => by
      unfold config_get
      rw [if_neg]
      · exact config_get_eq_none key rest
          (fun v hv => hno v (List.mem_cons_of_mem _ hv))
      · intro heq
        apply hno kv.2
        have hkv : (key, kv.2) = kv := by rw [← heq]
        rw [hkv]
        exact List.mem_cons_self _ _

/-- C9: the bound `config_get` returns null for every key absent from the
configuration store; the strings the host itself produces are never passed
to a plugin's `free_string` (every `freeString` event in any run matches a
buffer a plugin returned — the reverse ownership direction); and
`config_set`/`config_delete` return no value and signal no error to the
caller — a failing underlying store update leaves the store as it was and
is only logged. -/
theorem host_callback_config_contract (codec : Codec) (host : osr_host_api)
    (ops : List Op) (store : ConfigStore) (key value : String)
    (rawS : ConfigStore → String → String → Except String ConfigStore)
    (rawD : ConfigStore → String → Except String ConfigStore) :
    ((∀ v, (key, v) ∉ store) → config_get store key = none) ∧
    (∀ o ptr, Event.freeString o ptr ∈ (runHost codec host initState ops).2 →
      Event.pluginReturned o ptr ∈ (runHost codec host initState ops).2) ∧
    (∀ e, rawS store key value = .error e →
      config_set rawS store key value = (store, [e])) ∧
    (∀ s2, rawS store key value = .ok s2 →
      config_set rawS store key value = (s2, [])) ∧
    (∀ e, rawD store key = .error e →
      config_delete rawD store key = (store, [e])) ∧
    (∀ s2, rawD store key = .ok s2 →
      config_delete rawD store key = (s2, [])) := by
  refine ⟨config_get_eq_none key store, ?_, ?_, ?_, ?_, ?_⟩
  · intro o ptr hm
    obtain ⟨heq, _, _, _⟩ := runHost_traceSpec codec host ops initState
    rw [← mem_freesOf, ← heq, mem_retsOf] at hm
    exact hm
  · intro e he; simp [config_set, he]
  · intro s2 hs2; simp [config_set, hs2]
  · intro e he; simp [config_delete, he]
  · intro s2 hs2; simp [config_delete, hs2]

/-- Witness for C9: an absent key yields null, and the default store
update succeeds with no logged failure. -/
theorem host_callback_config_contract_witness :
    config_get [("k", "v")] "x" = none ∧
    config_set rawConfigSet [("k", "v")] "a" "b" =
      ([("a", "b"), ("k", "v")], []) := by
  constructor
  · apply (host_callback_config_contract codecW hostW [] [("k", "v")] "x" "b"
      rawConfigSet rawConfigDelete).1
    intro v hv
    rw [List.mem_singleton, Prod.mk.injEq] at hv
    exact absurd hv.1 (by decide)
  · exact (host_callback_config_contract codecW hostW [] [("k", "v")] "a" "b"
      rawConfigSet rawConfigDelete).2.2.2.1 [("a", "b"), ("k", "v")] rfl

end Osaurus
